import Mathlib

/-!
Verification of the release-flow core of the `regardio/dev` repository:
the shared utilities (`bumpVersion`, `insertChangelog`, `confirm`) and the
three promotion flows (`flow-release`, `flow-ship`, `flow-hotfix finish`),
shallowly embedded from `src/bin/flow/utils.ts`, `src/bin/flow/release.ts`,
`src/bin/flow-ship.ts` and `src/bin/flow-hotfix.ts`.

Strings are modelled as `List Char` where character-level reasoning is
needed.  JavaScript numbers are IEEE-754 binary64 values: `Number(string)`
is embedded by the ECMAScript *StringNumericLiteral* grammar (an exact
mathematical value) followed by rounding to nearest, ties to even; `+` is
the exact sum rounded the same way; template-literal rendering follows
Number::toString.  Git ancestry is modelled by representing a commit as
the list of (id, subject) pairs reachable from it, so that "fast-forward
possible" is exactly history inclusion.
-/

namespace Dev

/-! ## JavaScript numbers: IEEE-754 binary64 values

`Number(string)` is specified by ECMA-262 in two stages: the
*StringNumericLiteral* grammar denotes an exact mathematical value
(`MathNum` below, with an exact decimal `Dec10` for the finite case),
which is then rounded to a binary64 Number — round to nearest, ties to
even, overflowing to the infinities.  `JSNumber` is that binary64 value;
`+` is the exact sum rounded the same way, and template-literal
rendering follows Number::toString (shortest digit string that converts
back to the value).
-/

/-- Whitespace recognised by JS `trim`/`Number`: ASCII whitespace, NBSP,
BOM, the two line separators and the Zs space separators. -/
def isWs (c : Char) : Bool :=
  c == ' ' || c == '\t' || c == '\n' || c == '\r' || c.toNat == 11 ||
    c.toNat == 12 || c.toNat == 0xa0 || c.toNat == 0xfeff ||
    c.toNat == 0x2028 || c.toNat == 0x2029 || c.toNat == 0x1680 ||
    (decide (0x2000 ≤ c.toNat) && decide (c.toNat ≤ 0x200a)) ||
    c.toNat == 0x202f || c.toNat == 0x205f || c.toNat == 0x3000

/-- Strip leading and trailing JS whitespace. -/
def trimWs (cs : List Char) : List Char :=
  ((cs.dropWhile isWs).reverse.dropWhile isWs).reverse

/-- Value of a decimal digit character. -/
def digitVal? (c : Char) : Option Nat :=
  if c = '0' then some 0 else if c = '1' then some 1 else if c = '2' then some 2
  else if c = '3' then some 3 else if c = '4' then some 4 else if c = '5' then some 5
  else if c = '6' then some 6 else if c = '7' then some 7 else if c = '8' then some 8
  else if c = '9' then some 9 else none

/-- Value of a hexadecimal digit character. -/
def hexVal? (c : Char) : Option Nat :=
  match digitVal? c with
  | some v => some v
  | none =>
    if c = 'a' ∨ c = 'A' then some 10 else if c = 'b' ∨ c = 'B' then some 11
    else if c = 'c' ∨ c = 'C' then some 12 else if c = 'd' ∨ c = 'D' then some 13
    else if c = 'e' ∨ c = 'E' then some 14 else if c = 'f' ∨ c = 'F' then some 15
    else none

/-- Value of an octal digit character. -/
def octVal? (c : Char) : Option Nat :=
  (digitVal? c).bind fun v => if v < 8 then some v else none

/-- Value of a binary digit character. -/
def binVal? (c : Char) : Option Nat :=
  (digitVal? c).bind fun v => if v < 2 then some v else none

/-- A character is a decimal digit. -/
def isDigitC (c : Char) : Bool := (digitVal? c).isSome

/-- Numeric value of a list of decimal digits (most significant first). -/
def digitsVal (ds : List Char) : Nat :=
  ds.foldl (fun a c => a * 10 + (digitVal? c).getD 0) 0

/-- An exact decimal value `m * 10 ^ e`: the mathematical value of a
finite JS numeric literal before binary64 rounding. -/
structure Dec10 where
  m : Int
  e : Int
deriving DecidableEq

/-- The mathematical value denoted by a JS *StrNumericLiteral*: `NaN`, a
signed infinity, or an exact decimal value. -/
inductive MathNum where
  | nan : MathNum
  | inf : Bool → MathNum
  | val : Dec10 → MathNum
deriving DecidableEq

/-- A JS number: an IEEE-754 binary64 value.  A finite value
`val neg sig exp` denotes `(-1)^neg * sig * 2 ^ exp` and is kept
canonical: zero is `val false 0 0` (the sign of zero is collapsed —
`-0` behaves exactly like `+0` in every operation the flows perform,
including rendering as `"0"`), a normal value has `2^52 ≤ sig < 2^53`
with `-1074 ≤ exp ≤ 971`, and a subnormal value has `0 < sig < 2^52`
with `exp = -1074`. -/
inductive JSNumber where
  | nan : JSNumber
  | inf : Bool → JSNumber
  | val : Bool → Nat → Int → JSNumber
deriving DecidableEq

/-- Whether a `JSNumber` is `NaN` (JS `Number.isNaN`). -/
def jsIsNaN : JSNumber → Bool
  | .nan => true
  | _ => false

/-- Floor of the base-2 logarithm, fuel-driven so the kernel can
evaluate it (the fuel is the number itself). -/
def natLog2F : Nat → Nat → Nat
  | 0, _ => 0
  | f + 1, n => if n ≤ 1 then 0 else natLog2F f (n / 2) + 1

/-- `natLog2 n` is the unique `L` with `2 ^ L ≤ n < 2 ^ (L + 1)` for
`n ≥ 1`. -/
def natLog2 (n : Nat) : Nat := natLog2F n n

/-- Decide `q * 2 ^ d ≤ p` for an integer exponent `d`. -/
def qle2 (q : Nat) (d : Int) (p : Nat) : Bool :=
  if 0 ≤ d then decide (q * 2 ^ d.toNat ≤ p) else decide (q ≤ p * 2 ^ (-d).toNat)

/-- Division rounded to the nearest integer, ties to even. -/
def rdivEven (a b : Nat) : Nat :=
  let q := a / b
  let r := a % b
  if 2 * r < b then q
  else if b < 2 * r then q + 1
  else if q % 2 = 0 then q else q + 1

/-- Round the positive rational `p / q` (`p, q ≥ 1`) to the binary64
significand grid, round to nearest, ties to even.  The result `(t, k)`
denotes `t * 2 ^ k`; normal results have `2^52 ≤ t < 2^53`, subnormal
ones `t < 2^52` with `k = -1074` (`t = 0` is underflow to zero), and
`k > 971` is overflow, which `mkFin` turns into an infinity. -/
def roundPos (p q : Nat) : Nat × Int :=
  let d : Int := (natLog2 p : Int) - (natLog2 q : Int)
  let n : Int := if qle2 q d p then d else d - 1
  let k : Int := max (n - 52) (-1074)
  let t : Nat :=
    if 0 ≤ k then rdivEven p (q * 2 ^ k.toNat)
    else rdivEven (p * 2 ^ (-k).toNat) q
  if t = 2 ^ 53 then (2 ^ 52, k + 1) else (t, k)

/-- Package a rounding result as a finite number or an overflow
infinity. -/
def mkFin (neg : Bool) (tk : Nat × Int) : JSNumber :=
  if tk.1 = 0 then .val false 0 0
  else if 971 < tk.2 then .inf neg
  else .val neg tk.1 tk.2

/-- Round an exact decimal value to binary64: the ECMA-262 "Number value
for the mathematical value" (round to nearest, ties to even, overflow to
the infinities). -/
def roundDec (d : Dec10) : JSNumber :=
  if d.m = 0 then .val false 0 0
  else
    let a := d.m.natAbs
    if 0 ≤ d.e then mkFin (decide (d.m < 0)) (roundPos (a * 10 ^ d.e.toNat) 1)
    else mkFin (decide (d.m < 0)) (roundPos a (10 ^ (-d.e).toNat))

/-- Round an exact dyadic value `(-1)^neg * a * 2 ^ k` to binary64. -/
def roundDyadic (neg : Bool) (a : Nat) (k : Int) : JSNumber :=
  if a = 0 then .val false 0 0
  else if 0 ≤ k then mkFin neg (roundPos (a * 2 ^ k.toNat) 1)
  else mkFin neg (roundPos a (2 ^ (-k).toNat))

/-- JS `+` on numbers: IEEE-754 binary64 addition, i.e. the exact sum
rounded to nearest, ties to even. -/
def jsAdd : JSNumber → JSNumber → JSNumber
  | .nan, _ => .nan
  | _, .nan => .nan
  | .inf a, .inf b => if a = b then .inf a else .nan
  | .inf a, .val _ _ _ => .inf a
  | .val _ _ _, .inf b => .inf b
  | .val n1 s1 e1, .val n2 s2 e2 =>
    let k := min e1 e2
    let S : Int := (if n1 then -(s1 : Int) else (s1 : Int)) * 2 ^ (e1 - k).toNat +
      (if n2 then -(s2 : Int) else (s2 : Int)) * 2 ^ (e2 - k).toNat
    roundDyadic (decide (S < 0)) S.natAbs k

/-- The JS numeric literal `1` as a binary64 value. -/
def jsOne : JSNumber := roundDec ⟨1, 0⟩

/-- The canonical binary64 significand/exponent pair of an exactly
representable positive integer `1 ≤ W ≤ 2 ^ 53`. -/
def cPair (W : Nat) : Nat × Int :=
  if W = 2 ^ 53 then (2 ^ 52, 1)
  else (W * 2 ^ (52 - natLog2 W), (natLog2 W : Int) - 52)

/-- The binary64 value of a natural number `≤ 2 ^ 53` (all of which are
exactly representable). -/
def dblNat (W : Nat) : JSNumber :=
  if W = 0 then .val false 0 0 else .val false (cPair W).1 (cPair W).2

/-- Parse the digits after `e`/`E` in a decimal exponent; the whole rest of
the input must be consumed. -/
def parseExpDigits (neg : Bool) (r : List Char) : Option Int :=
  let ds := r.takeWhile isDigitC
  let rest := r.dropWhile isDigitC
  if ds ≠ [] ∧ rest = [] then
    some (if neg then -(digitsVal ds : Int) else (digitsVal ds : Int))
  else none

/-- Parse an optional exponent part (`[eE][+-]?digits`); `[]` means
exponent 0; anything else is a parse failure. -/
def parseExpOpt (r : List Char) : Option Int :=
  match r with
  | [] => some 0
  | c :: r1 =>
    if c = 'e' ∨ c = 'E' then
      match r1 with
      | '+' :: r2 => parseExpDigits false r2
      | '-' :: r2 => parseExpDigits true r2
      | _ => parseExpDigits false r1
    else none

/-- Parse a *StrUnsignedDecimalLiteral* without the `Infinity` case:
`digits [. digits] [exp]` or `. digits [exp]`, consuming all input.  The
value of `intDigits.fracDigits e exp` is
`digitsVal (intDigits ++ fracDigits) * 10 ^ (exp - fracDigits.length)`. -/
def parseUnsignedDec (cs : List Char) : Option Dec10 :=
  let ds := cs.takeWhile isDigitC
  let r1 := cs.dropWhile isDigitC
  match r1 with
  | '.' :: r2 =>
    let fs := r2.takeWhile isDigitC
    let r3 := r2.dropWhile isDigitC
    if ds = [] ∧ fs = [] then none
    else
      match parseExpOpt r3 with
      | some e => some ⟨(digitsVal (ds ++ fs) : Int), e - (fs.length : Int)⟩
      | none => none
  | _ =>
    if ds = [] then none
    else
      match parseExpOpt r1 with
      | some e => some ⟨(digitsVal ds : Int), e⟩
      | none => none

/-- Parse a run of digits in the given radix; the run must be nonempty and
consume all input. -/
def radixNum (valFn : Char → Option Nat) (base : Nat) (ds : List Char) : MathNum :=
  if ds ≠ [] ∧ ds.all fun c => (valFn c).isSome then
    .val ⟨((ds.foldl (fun a c => a * base + (valFn c).getD 0) 0 : Nat) : Int), 0⟩
  else .nan

/-- One of the radix tag characters of `0x..`/`0o..`/`0b..` literals. -/
def radixTag (c : Char) : Bool :=
  c == 'x' || c == 'X' || c == 'o' || c == 'O' || c == 'b' || c == 'B'

/-- The (trimmed, nonempty) input starts with a non-decimal radix prefix. -/
def isRadixPrefix (cs : List Char) : Bool :=
  match cs with
  | c0 :: c1 :: _ => c0 == '0' && radixTag c1
  | _ => false

/-- Parse a `0x`/`0o`/`0b` literal (no sign allowed in JS). -/
def parseNonDecimal (cs : List Char) : MathNum :=
  match cs with
  | _ :: c1 :: r =>
    if c1 = 'x' ∨ c1 = 'X' then radixNum hexVal? 16 r
    else if c1 = 'o' ∨ c1 = 'O' then radixNum octVal? 8 r
    else radixNum binVal? 2 r
  | _ => .nan

/-- Parse a *StrUnsignedDecimalLiteral* (including `Infinity`), applying
the given sign. -/
def parseUnsigned (cs : List Char) (neg : Bool) : MathNum :=
  if cs = "Infinity".toList then .inf neg
  else
    match parseUnsignedDec cs with
    | some q => .val (if neg then ⟨-q.m, q.e⟩ else q)
    | none => .nan

/-- Parse a *StrDecimalLiteral*: optional sign then unsigned literal. -/
def parseSigned (cs : List Char) : MathNum :=
  match cs with
  | c :: r =>
    if c = '+' then parseUnsigned r false
    else if c = '-' then parseUnsigned r true
    else parseUnsigned cs false
  | [] => parseUnsigned cs false

/-- The mathematical value of JS `Number(s)`: trim; empty means `+0`;
then a radix-prefixed integer literal or a signed decimal literal. -/
def mathNumL (cs0 : List Char) : MathNum :=
  let cs := trimWs cs0
  if cs = [] then .val ⟨0, 0⟩
  else if isRadixPrefix cs then parseNonDecimal cs
  else parseSigned cs

/-- JS `Number(s)` on a character list: the literal's mathematical value
rounded to binary64. -/
def jsNumberL (cs0 : List Char) : JSNumber :=
  match mathNumL cs0 with
  | .nan => .nan
  | .inf b => .inf b
  | .val d => roundDec d

/-! ## Decimal rendering of numbers (template-literal interpolation) -/

/-- The decimal digit character for `n < 10`. -/
def decDigit (n : Nat) : Char :=
  if n = 0 then '0' else if n = 1 then '1' else if n = 2 then '2'
  else if n = 3 then '3' else if n = 4 then '4' else if n = 5 then '5'
  else if n = 6 then '6' else if n = 7 then '7' else if n = 8 then '8' else '9'

/-- Fuel-driven decimal printer (structural recursion so that the kernel
can evaluate it). -/
def natToDecimalAux : Nat → Nat → List Char
  | 0, _ => []
  | fuel + 1, n =>
    if n < 10 then [decDigit n]
    else natToDecimalAux fuel (n / 10) ++ [decDigit (n % 10)]

/-- Canonical decimal rendering of a natural number. -/
def natToDecimal (n : Nat) : List Char := natToDecimalAux (n + 1) n

/-- Smallest `j' ≥ j` with `P < Q * 10 ^ (j' + 1)` (fuel-driven). -/
def decExpUp (P Q : Nat) : Nat → Nat → Nat
  | 0, j => j
  | f + 1, j => if P < Q * 10 ^ (j + 1) then j else decExpUp P Q f (j + 1)

/-- Smallest `i ≥ i0` with `Q ≤ P * 10 ^ i` (fuel-driven). -/
def decExpDown (P Q : Nat) : Nat → Nat → Nat
  | 0, i => i
  | f + 1, i => if Q ≤ P * 10 ^ i then i else decExpDown P Q f (i + 1)

/-- Decimal exponent of the positive rational `P / Q`: the unique `n`
with `10 ^ (n - 1) ≤ P / Q < 10 ^ n` (the fuel covers the whole binary64
range). -/
def decExp (P Q : Nat) : Int :=
  if Q ≤ P then (decExpUp P Q 340 0 : Int) + 1
  else 1 - (decExpDown P Q 1100 1 : Int)

/-- The `k`-significant-digit decimal candidate for the value `P / Q`
with decimal exponent `n`: the nearest (ties to even) multiple
`s * 10 ^ (n - k)` with `s` of `k` digits; a carry to `10 ^ k`
renormalises to decimal exponent `n + 1`. -/
def digitsCand (P Q : Nat) (n : Int) (k : Nat) : Nat × Int :=
  let s0 := if n ≤ (k : Int) then rdivEven (P * 10 ^ ((k : Int) - n).toNat) Q
    else rdivEven P (Q * 10 ^ (n - (k : Int)).toNat)
  if s0 = 10 ^ k then (10 ^ (k - 1), n + 1) else (s0, n)

/-- ECMA-262 Number::toString chooses the smallest digit count `k` such
that the `k`-digit candidate converts back to the number.  17 digits
always suffice for a binary64 value, so the last (unchecked) candidate
is only a totality fallback. -/
def tryDigits (P Q : Nat) (n : Int) (tgt : JSNumber) : Nat → Nat → Nat × Int × Nat
  | 0, k => ((digitsCand P Q n k).1, (digitsCand P Q n k).2, k)
  | f + 1, k =>
    let c := digitsCand P Q n k
    if roundDec ⟨(c.1 : Int), c.2 - (k : Int)⟩ == tgt then (c.1, c.2, k)
    else tryDigits P Q n tgt f (k + 1)

/-- Lay out `k` significant digits `s` at decimal exponent `n` following
ECMA-262 Number::toString: plain digits for `k ≤ n ≤ 21`, a decimal
point inside or below the digits for `-6 < n ≤ 21`, exponent notation
otherwise. -/
def formatDigits (s : Nat) (n : Int) (k : Nat) : List Char :=
  let ds := natToDecimal s
  if (k : Int) ≤ n ∧ n ≤ 21 then ds ++ List.replicate (n - (k : Int)).toNat '0'
  else if 0 < n ∧ n ≤ 21 then ds.take n.toNat ++ '.' :: ds.drop n.toNat
  else if -5 ≤ n ∧ n ≤ 0 then '0' :: '.' :: (List.replicate (-n).toNat '0' ++ ds)
  else
    (if k = 1 then ds else ds.take 1 ++ '.' :: ds.drop 1) ++
      'e' :: (if 0 ≤ n - 1 then '+' :: natToDecimal (n - 1).toNat
        else '-' :: natToDecimal (1 - n).toNat)

/-- Digits of a positive finite binary64 value `sig * 2 ^ exp`. -/
def renderPosD (sig : Nat) (exp : Int) : List Char :=
  let P := if 0 ≤ exp then sig * 2 ^ exp.toNat else sig
  let Q := if 0 ≤ exp then 1 else 2 ^ (-exp).toNat
  let n := decExp P Q
  let r := tryDigits P Q n (.val false sig exp) 16 1
  formatDigits r.1 r.2.1 r.2.2

/-- Rendering of a JS number by template-literal interpolation
(ECMA-262 Number::toString with radix 10). -/
def renderJSNumber : JSNumber → List Char
  | .nan => "NaN".toList
  | .inf b => if b then "-Infinity".toList else "Infinity".toList
  | .val neg sig exp =>
    if sig = 0 then ['0']
    else if neg then '-' :: renderPosD sig exp
    else renderPosD sig exp

/-! ## `bumpVersion` (src/bin/flow/utils.ts) -/

/-- JS `String.prototype.split(sep)` for a one-character separator: split
at every occurrence of `sep`, keeping empty segments; the empty string
yields `[""]`. -/
def splitOnChar (sep : Char) : List Char → List (List Char)
  | [] => [[]]
  | c :: rest =>
    if c = sep then [] :: splitOnChar sep rest
    else
      match splitOnChar sep rest with
      | h :: t => (c :: h) :: t
      | [] => [[c]]

/-- `bumpVersion(current, bump)` from `src/bin/flow/utils.ts`:
`current.split('.').map(Number)`; throw `Invalid semver` unless there are
exactly three parts none of which is `NaN`; then bump the requested
component (any `bump` other than `"major"`/`"minor"` bumps the patch). -/
def bumpVersion (current bump : String) : Except String String :=
  let parts := (splitOnChar '.' current.toList).map jsNumberL
  if parts.length ≠ 3 ∨ parts.any jsIsNaN then
    .error ("Invalid semver: " ++ current)
  else
    let major := parts.getD 0 .nan
    let minor := parts.getD 1 .nan
    let patch := parts.getD 2 .nan
    if bump = "major" then
      .ok (String.mk (renderJSNumber (jsAdd major jsOne)) ++ ".0.0")
    else if bump = "minor" then
      .ok (String.mk (renderJSNumber major) ++ "." ++
        String.mk (renderJSNumber (jsAdd minor jsOne)) ++ ".0")
    else
      .ok (String.mk (renderJSNumber major) ++ "." ++
        String.mk (renderJSNumber minor) ++ "." ++
        String.mk (renderJSNumber (jsAdd patch jsOne)))

/-- Whether an `Except` is an error. -/
def isErr {ε α : Type} : Except ε α → Bool
  | .error _ => true
  | .ok _ => false

instance {ε α : Type} [DecidableEq ε] [DecidableEq α] : DecidableEq (Except ε α) := fun x y =>
  match x, y with
  | .error a, .error b =>
    if h : a = b then .isTrue (by rw [h]) else .isFalse (by simp [h])
  | .error _, .ok _ => .isFalse (by simp)
  | .ok _, .error _ => .isFalse (by simp)
  | .ok a, .ok b =>
    if h : a = b then .isTrue (by rw [h]) else .isFalse (by simp [h])

/-- The canonical version string `M.N.P`. -/
def verString (M N P : Nat) : String :=
  String.mk (natToDecimal M ++ '.' :: (natToDecimal N ++ '.' :: natToDecimal P))

/-- The claim's notion of a well-formed component: a nonempty string of
decimal digits. -/
def isNonNegIntComp (cs : List Char) : Bool := !cs.isEmpty && cs.all isDigitC

/-! ## `insertChangelog` (src/bin/flow/utils.ts) -/

/-- `p` is a prefix of `xs` (as a Bool). -/
def hasPre (p xs : List Char) : Bool := xs.take p.length == p

/-- Index of the first occurrence of `pat` in `xs` (JS `String.prototype.indexOf`,
with `none` for `-1`). -/
def firstIdx (pat : List Char) : List Char → Option Nat
  | [] => if hasPre pat [] then some 0 else none
  | c :: rest =>
    if hasPre pat (c :: rest) then some 0 else (firstIdx pat rest).map (· + 1)

/-- `pat` occurs somewhere in `xs`. -/
def hasSub (pat xs : List Char) : Bool := (firstIdx pat xs).isSome

/-- The search pattern `"\n## "` of `insertChangelog`. -/
def nlHH : List Char := ['\n', '#', '#', ' ']

/-- JS `String.prototype.trimEnd`. -/
def trimEndWs (cs : List Char) : List Char := (cs.reverse.dropWhile isWs).reverse

/-- `insertChangelog(changelogPath, entry)` from `src/bin/flow/utils.ts`,
with the file system abstracted to the current content of the file
(`none` when the file does not exist):
* file missing: write `"# Changelog\n\n" + entry`;
* file present, `existing.indexOf('\n## ') === -1`:
  write `existing.trimEnd() + "\n\n" + entry`;
* otherwise splice: `existing.slice(0, i) + "\n\n" + entry + existing.slice(i + 1)`
  at the first occurrence `i` of `"\n## "`. -/
def insertChangelog (existing : Option (List Char)) (entry : List Char) : List Char :=
  match existing with
  | some ex =>
    match firstIdx nlHH ex with
    | none => trimEndWs ex ++ '\n' :: '\n' :: entry
    | some i => ex.take i ++ '\n' :: '\n' :: (entry ++ ex.drop (i + 1))
  | none => "# Changelog\n\n".toList ++ entry

/-! ## `confirm` -/

/-- JS `String.prototype.trim`. -/
def jsTrim (s : String) : String := String.mk (trimWs s.toList)

/-- JS `String.prototype.toLowerCase` (ASCII part, which is all the flows
compare against). -/
def jsToLower (s : String) : String := String.mk (s.toList.map Char.toLower)

/-- Observable behaviour of one `confirm` call: the text written to the
output stream and the returned Boolean. -/
structure ConfirmRun where
  output : String
  result : Bool
deriving DecidableEq

/-- Modelled from the spec: the implementation of `confirm` in
`src/bin/flow/utils.ts` is not present under `src/` — only its unit tests
(`src/bin/flow/utils.test.ts`) and its importer (`flow-ship`) are — so it
is modelled from §4.5 of the spec: write `"<promptText> (y/N) "` to the
output stream, read one line from the input source, and return true iff
the trimmed, case-insensitive input is exactly `"y"`. -/
def confirm (promptText inputLine : String) : ConfirmRun :=
  { output := promptText ++ " (y/N) "
    result := jsToLower (jsTrim inputLine) == "y" }

/-! ## Repository model

A commit is represented by the list of (id, subject) pairs reachable from
it (newest first) together with the tree snapshot it carries, so that
"`a` is an ancestor of or equal to `b`" is exactly inclusion of id lists
and a fast-forward moves a ref to the other commit.  The snapshot tracks
the two files the flows read and write (`package.json` reduced to its
`name`/`version` fields, and `CHANGELOG.md`); `none` models a missing
file.  Remote-tracking refs and the remote itself are identified (a
`git fetch` is a pure trace event).  `trace` records the commands the flow
has executed.  External collaborators are oracles: the quality gate's
outcome is an input Boolean, and the best-effort `fix` step is modelled as
not changing the two tracked files. -/

structure Pkg where
  name : String
  version : String
deriving DecidableEq

structure Snapshot where
  pkg : Option Pkg
  changelog : Option (List Char)
deriving DecidableEq

structure Commit where
  hist : List (Nat × String)
  snap : Snapshot
deriving DecidableEq

/-- Every commit id of `a` appears in `b`: `a` is an ancestor of or equal
to `b`. -/
def subHist (a b : List (Nat × String)) : Bool :=
  a.all fun p => b.any fun q => q.1 == p.1

structure RepoState where
  main : Commit
  staging : Commit
  production : Commit
  omain : Commit
  ostaging : Commit
  oproduction : Commit
  hasStaging : Bool
  hasProduction : Bool
  hotfixBr : Option (String × Commit)
  current : String
  wt : Snapshot
  dirty : Bool
  ctr : Nat
  trace : List String
deriving DecidableEq

/-- Append an executed command to the trace (each `git`/`pnpm` helper of
`utils.ts` echoes the command it runs). -/
def logCmd (cmd : String) (s : RepoState) : RepoState :=
  { s with trace := s.trace ++ [cmd] }

/-- Tip of a local branch. -/
def tipB (b : String) (s : RepoState) : Commit :=
  if b = "main" then s.main
  else if b = "staging" then s.staging
  else if b = "production" then s.production
  else
    match s.hotfixBr with
    | some (n, c) => if b = n then c else ⟨[], ⟨none, none⟩⟩
    | none => ⟨[], ⟨none, none⟩⟩

/-- Move a local branch ref. -/
def setTip (b : String) (c : Commit) (s : RepoState) : RepoState :=
  if b = "main" then { s with main := c }
  else if b = "staging" then { s with staging := c }
  else if b = "production" then { s with production := c }
  else
    match s.hotfixBr with
    | some (n, _) => if b = n then { s with hotfixBr := some (n, c) } else s
    | none => s

/-- Tip of a remote branch (the three pipeline branches). -/
def remoteB (b : String) (s : RepoState) : Commit :=
  if b = "main" then s.omain
  else if b = "staging" then s.ostaging
  else s.oproduction

/-- Move a remote branch ref. -/
def setRemote (b : String) (c : Commit) (s : RepoState) : RepoState :=
  if b = "main" then { s with omain := c }
  else if b = "staging" then { s with ostaging := c }
  else { s with oproduction := c }

/-- `git fetch origin`. -/
def gitFetch (s : RepoState) : RepoState := logCmd "git fetch origin" s

/-- `git checkout b`: switch the working tree to `b`'s tip. -/
def gitCheckout (b : String) (s : RepoState) : RepoState :=
  let s1 := logCmd ("git checkout " ++ b) s
  { s1 with current := b, wt := (tipB b s1).snap, dirty := false }

/-- `git pull --ff-only origin b` (the flows always pull the checked-out
branch): fast-forward the local ref to the remote tip when possible, a
no-op when already up to date, otherwise the command fails and the
uncaught error aborts the flow (`none`). -/
def gitPullFFOnly (b : String) (s : RepoState) : Option RepoState :=
  let s1 := logCmd ("git pull --ff-only origin " ++ b) s
  let l := tipB b s1
  let r := remoteB b s1
  if subHist l.hist r.hist then
    some { setTip b r s1 with wt := r.snap, dirty := false }
  else if subHist r.hist l.hist then some s1
  else none

/-- `git merge --ff-only other` on the current branch. -/
def gitMergeFFOnly (other : String) (s : RepoState) : Option RepoState :=
  let s1 := logCmd ("git merge --ff-only " ++ other) s
  let a := tipB s1.current s1
  let b := tipB other s1
  if subHist a.hist b.hist then
    some { setTip s1.current b s1 with wt := b.snap, dirty := false }
  else if subHist b.hist a.hist then some s1
  else none

/-- `git merge --no-ff other -m msg` on the current branch: a no-op when
already up to date, otherwise a fresh merge commit (the merged tree is
modelled as the incoming branch's snapshot; merge conflicts are not
modelled). -/
def gitMergeNoFF (other msg : String) (s : RepoState) : RepoState :=
  let s1 := logCmd ("git merge --no-ff " ++ other) s
  let a := tipB s1.current s1
  let b := tipB other s1
  if subHist b.hist a.hist then s1
  else
    let c : Commit := ⟨(s1.ctr, msg) :: (a.hist ++ b.hist), b.snap⟩
    { setTip s1.current c s1 with wt := b.snap, dirty := false, ctr := s1.ctr + 1 }

/-- `git push origin b`: fails unless the remote ref can fast-forward. -/
def gitPush (b : String) (s : RepoState) : Option RepoState :=
  let s1 := logCmd ("git push origin " ++ b) s
  if subHist (remoteB b s1).hist (tipB b s1).hist then
    some (setRemote b (tipB b s1) s1)
  else none

/-- `git add -A`. -/
def gitAddAll (s : RepoState) : RepoState := logCmd "git add -A" s

/-- `git commit -m subject ...`: fails when there is nothing to commit,
otherwise records the working tree as a fresh commit on the current
branch. -/
def gitCommitAll (subject : String) (s : RepoState) : Option RepoState :=
  let s1 := logCmd ("git commit " ++ subject) s
  if s1.dirty then
    let c : Commit := ⟨(s1.ctr, subject) :: (tipB s1.current s1).hist, s1.wt⟩
    some { setTip s1.current c s1 with dirty := false, ctr := s1.ctr + 1 }
  else none

/-- `runQualityChecks()` (`pnpm build` / `typecheck` / `report`); whether
it succeeds is an input to the flow. -/
def runQualityChecksOp (s : RepoState) : RepoState := logCmd "runQualityChecks" s

/-- Best-effort `pnpm fix`; a failure is swallowed by every flow. -/
def runFixOp (s : RepoState) : RepoState := logCmd "pnpm fix" s

/-- `writeFileSync(packageJsonPath, JSON.stringify({...packageJson, version}))`. -/
def writePkg (p : Pkg) (s : RepoState) : RepoState :=
  { s with wt := { s.wt with pkg := some p }, dirty := true }

/-- `insertChangelog(changelogPath, entry)` applied to the working tree. -/
def writeChangelogOp (entry : List Char) (s : RepoState) : RepoState :=
  { s with
    wt := { s.wt with changelog := some (insertChangelog s.wt.changelog entry) }
    dirty := true }

/-- `git log a..b --pretty=format:%s`: subjects reachable from `b` but not
from `a`, newest first, joined with newlines. -/
def logSubjectsBetween (a b : Commit) : String :=
  String.intercalate "\n"
    ((b.hist.filter fun p => !(a.hist.any fun q => q.1 == p.1)).map fun p => p.2)

/-- `changeLines` of `flow-ship`: split the log output on newlines, trim,
drop empties (an empty log output yields `[]`). -/
def changeLinesOf (logOutput : String) : List String :=
  if logOutput = "" then []
  else
    (((splitOnChar '\n' logOutput.toList).map fun l => jsTrim (String.mk l)).filter
      fun t => t.length > 0)

/-- One changelog bullet of `flow-ship`, truncating subjects longer than
98 characters at 95 plus an ellipsis. -/
def bulletOf (c : String) : String :=
  if c.length > 98 then "- " ++ String.mk (c.toList.take 95) ++ "..." else "- " ++ c

/-- `changeBody` of `flow-ship`. -/
def changeBodyOf (bumpType logOutput : String) : String :=
  let ls := changeLinesOf logOutput
  if ls.length > 0 then String.intercalate "\n" (ls.map bulletOf)
  else bumpType ++ " release"

/-- The changelog section `flow-ship` inserts:
`## [newVersion] - today\n\n<body>\n`. -/
def sectionEntry (newVersion today body : String) : List Char :=
  "## [".toList ++ newVersion.toList ++ "] - ".toList ++ today.toList ++
    "\n\n".toList ++ body.toList ++ "\n".toList

/-- The heading prefix of such a section. -/
def sectionHead (newVersion today : String) : List Char :=
  "## [".toList ++ newVersion.toList ++ "] - ".toList ++ today.toList

/-- The changelog section `flow-hotfix finish` inserts:
`## [newVersion] - today (hotfix)\n\n<message>\n`. -/
def hotfixEntry (newVersion today message : String) : List Char :=
  "## [".toList ++ newVersion.toList ++ "] - ".toList ++ today.toList ++
    " (hotfix)\n\n".toList ++ message.toList ++ "\n".toList

/-! ## `flow-ship` (src/bin/flow-ship.ts) -/

/-- The inputs of one `flow-ship` run that come from outside the
repository: the CLI argument, the operator's answer line, the quality
gate's outcome, and today's date string. -/
structure ShipInput where
  bumpType : String
  confirmLine : String
  qualityOk : Bool
  today : String
deriving DecidableEq

/-- How a `flow-ship` run terminated, with the repository state at that
point (`usage` aborts before anything is read). -/
inductive ShipRes where
  | usage : ShipRes
  | notMain : RepoState → ShipRes
  | dirtyTree : RepoState → ShipRes
  | noStaging : RepoState → ShipRes
  | noProduction : RepoState → ShipRes
  | nothingToShip : RepoState → ShipRes
  | noPkg : RepoState → ShipRes
  | declined : RepoState → ShipRes
  | qualityFail : RepoState → ShipRes
  | crashed : RepoState → ShipRes
  | success : RepoState → ShipRes
deriving DecidableEq

/-- Process exit code of a `flow-ship` outcome (`crashed` is an uncaught
throw, hence nonzero). -/
def ShipRes.exitCode : ShipRes → Nat
  | .declined _ => 0
  | .success _ => 0
  | _ => 1

/-- The promote chain of `flow-ship` (the tail of the script, lines
486–509): merge `staging` into `production` and push, carry the version
commit back to `main`, re-sync `staging`, and return to `main`.  Every
merge is `--ff-only`. -/
def promoteChain (s8 : RepoState) : ShipRes :=
  let s9 := gitCheckout "production" s8
  match gitPullFFOnly "production" s9 with
  | none => .crashed s9
  | some s10 =>
    match gitMergeFFOnly "staging" s10 with
    | none => .crashed s10
    | some s11 =>
      match gitPush "production" s11 with
      | none => .crashed s11
      | some s12 =>
        let s13 := gitCheckout "main" s12
        match gitPullFFOnly "main" s13 with
        | none => .crashed s13
        | some s14 =>
          match gitMergeFFOnly "production" s14 with
          | none => .crashed s14
          | some s15 =>
            match gitPush "main" s15 with
            | none => .crashed s15
            | some s16 =>
              let s17 := gitCheckout "staging" s16
              match gitMergeFFOnly "main" s17 with
              | none => .crashed s17
              | some s18 =>
                match gitPush "staging" s18 with
                | none => .crashed s18
                | some s19 => .success (gitCheckout "main" s19)

/-- `flow-ship <patch|minor|major>`, step for step from
`src/bin/flow-ship.ts`. -/
def shipFlow (inp : ShipInput) (s0 : RepoState) : ShipRes :=
  if ¬ (inp.bumpType = "patch" ∨ inp.bumpType = "minor" ∨ inp.bumpType = "major") then
    .usage
  else if s0.current ≠ "main" then .notMain s0
  else if s0.dirty then .dirtyTree s0
  else
    let s1 := gitFetch s0
    if ¬ s1.hasStaging then .noStaging s1
    else if ¬ s1.hasProduction then .noProduction s1
    else if subHist s1.ostaging.hist s1.oproduction.hist then .nothingToShip s1
    else
      match s1.wt.pkg with
      | none => .noPkg s1
      | some pk =>
        if ¬ (confirm ("\nShip " ++ pk.name ++ " as a " ++ inp.bumpType ++ " release?")
            inp.confirmLine).result then
          .declined s1
        else
          let s2 := gitCheckout "staging" s1
          match gitPullFFOnly "staging" s2 with
          | none => .crashed s2
          | some s3 =>
            let s4 := runQualityChecksOp s3
            if ¬ inp.qualityOk then .qualityFail (gitCheckout "main" s4)
            else
              match s4.wt.pkg with
              | none => .crashed s4
              | some pk2 =>
                match bumpVersion pk2.version inp.bumpType with
                | .error _ => .crashed s4
                | .ok newV =>
                  let s5 := writePkg { pk2 with version := newV } s4
                  let body := changeBodyOf inp.bumpType
                    (logSubjectsBetween s5.oproduction (tipB "staging" s5))
                  let s6 := writeChangelogOp (sectionEntry newV inp.today body) s5
                  let s7 := gitAddAll (runFixOp s6)
                  match gitCommitAll ("chore(release): " ++ pk.name ++ "@" ++ newV) s7 with
                  | none => .crashed s7
                  | some s8 => promoteChain s8

/-! ## `flow-release` (src/bin/flow/release.ts) -/

/-- Outside inputs of a `flow-release` run: the CLI arguments, the quality
gate's outcome, and whether the best-effort `fix` step modified any file
(leaving something to stage). -/
structure RelInput where
  args : List String
  qualityOk : Bool
  fixDirties : Bool
deriving DecidableEq

/-- How a `flow-release` run terminated. -/
inductive RelRes where
  | notMain : RepoState → RelRes
  | dirtyTree : RepoState → RelRes
  | crashed : RepoState → RelRes
  | noPkg : RepoState → RelRes
  | noName : RepoState → RelRes
  | noStaging : RepoState → RelRes
  | qualityFail : RepoState → RelRes
  | success : RepoState → RelRes
deriving DecidableEq

/-- Process exit code of a `flow-release` outcome. -/
def RelRes.exitCode : RelRes → Nat
  | .success _ => 0
  | _ => 1

/-- `flow-release [message...]`, step for step from
`src/bin/flow/release.ts`. -/
def releaseFlow (inp : RelInput) (s0 : RepoState) : RelRes :=
  let message :=
    if String.intercalate " " inp.args = "" then "auto-fix formatting"
    else String.intercalate " " inp.args
  if s0.current ≠ "main" then .notMain s0
  else if s0.dirty then .dirtyTree s0
  else
    let s1 := gitFetch s0
    match gitPullFFOnly "main" s1 with
    | none => .crashed s1
    | some s2 =>
      match s2.wt.pkg with
      | none => .noPkg s2
      | some pk =>
        if pk.name = "" then .noName s2
        else if ¬ s2.hasStaging then .noStaging s2
        else
          let s3 := runQualityChecksOp s2
          if ¬ inp.qualityOk then .qualityFail s3
          else
            let s4 := gitAddAll (runFixOp s3)
            let s5 := if inp.fixDirties then { s4 with dirty := true } else s4
            let s6 :=
              if s5.dirty then
                (gitCommitAll ("chore(staging): " ++ message) s5).getD s5
              else s5
            let s7 := gitCheckout "staging" s6
            match gitMergeFFOnly "main" s7 with
            | none => .crashed s7
            | some s8 =>
              match gitPush "staging" s8 with
              | none => .crashed s8
              | some s9 =>
                let s10 := gitCheckout "main" s9
                match gitPush "main" s10 with
                | none => .crashed s10
                | some s11 => .success s11

/-! ## `flow-hotfix finish` (src/bin/flow-hotfix.ts) -/

/-- Outside inputs of a `flow-hotfix finish` run. -/
structure HfInput where
  qualityOk : Bool
  today : String
deriving DecidableEq

/-- How a `flow-hotfix finish` run terminated. -/
inductive HfRes where
  | usageBadKind : RepoState → HfRes
  | usageNoMsg : RepoState → HfRes
  | notHotfixBranch : RepoState → HfRes
  | dirtyTree : RepoState → HfRes
  | qualityFail : RepoState → HfRes
  | noPkg : RepoState → HfRes
  | crashed : RepoState → HfRes
  | success : RepoState → HfRes
deriving DecidableEq

/-- Process exit code of a `flow-hotfix finish` outcome. -/
def HfRes.exitCode : HfRes → Nat
  | .success _ => 0
  | _ => 1

/-- The current branch is a `hotfix/*` branch. -/
def onHotfixBranch (b : String) : Bool := hasPre "hotfix/".toList b.toList

/-- `flow-hotfix finish <patch|minor> "description"`, step for step from
`src/bin/flow-hotfix.ts`; `subArgs` is `process.argv.slice(3)`, so
`bumpType` is `subArgs[0]` (the empty string standing for a missing,
falsy argument) and `message` is `subArgs.slice(1).join(' ')`. -/
def hotfixFinish (subArgs : List String) (inp : HfInput) (s0 : RepoState) : HfRes :=
  let bumpType := (subArgs.head?).getD ""
  let message := String.intercalate " " (subArgs.drop 1)
  if ¬ (bumpType = "patch" ∨ bumpType = "minor") then .usageBadKind s0
  else if message = "" then .usageNoMsg s0
  else if ¬ onHotfixBranch s0.current then .notHotfixBranch s0
  else if s0.dirty then .dirtyTree s0
  else
    let s1 := runQualityChecksOp s0
    if ¬ inp.qualityOk then .qualityFail s1
    else
      match s1.wt.pkg with
      | none => .noPkg s1
      | some pk =>
        match bumpVersion pk.version bumpType with
        | .error _ => .crashed s1
        | .ok newV =>
          let s2 := writePkg { pk with version := newV } s1
          let s3 := writeChangelogOp (hotfixEntry newV inp.today message) s2
          let s4 := gitAddAll (runFixOp s3)
          match gitCommitAll ("chore(hotfix): " ++ pk.name ++ "@" ++ newV) s4 with
          | none => .crashed s4
          | some s5 =>
            let s6 := gitFetch s5
            let hb := s6.current
            let s7 := gitCheckout "production" s6
            match gitPullFFOnly "production" s7 with
            | none => .crashed s7
            | some s8 =>
              let s9 := gitMergeNoFF hb ("chore(hotfix): merge " ++ hb ++ " into production") s8
              match gitPush "production" s9 with
              | none => .crashed s9
              | some s10 =>
                let s11 := gitCheckout "staging" s10
                match gitPullFFOnly "staging" s11 with
                | none => .crashed s11
                | some s12 =>
                  let s13 := gitMergeNoFF "production"
                    "chore(hotfix): merge production into staging" s12
                  match gitPush "staging" s13 with
                  | none => .crashed s13
                  | some s14 =>
                    let s15 := gitCheckout "main" s14
                    match gitPullFFOnly "main" s15 with
                    | none => .crashed s15
                    | some s16 =>
                      let s17 := gitMergeNoFF "staging"
                        "chore(hotfix): merge staging into main" s16
                      match gitPush "main" s17 with
                      | none => .crashed s17
                      | some s18 =>
                        let s19 := logCmd ("git branch -d " ++ hb)
                          { s18 with hotfixBr := none }
                        .success (logCmd ("git push origin --delete " ++ hb) s19)

/-! ## Projections and concrete demonstration states -/

/-- The empty repository state (used only as a `getD` default). -/
def emptyRepo : RepoState :=
  { main := ⟨[], ⟨none, none⟩⟩, staging := ⟨[], ⟨none, none⟩⟩
    production := ⟨[], ⟨none, none⟩⟩, omain := ⟨[], ⟨none, none⟩⟩
    ostaging := ⟨[], ⟨none, none⟩⟩, oproduction := ⟨[], ⟨none, none⟩⟩
    hasStaging := false, hasProduction := false, hotfixBr := none
    current := "", wt := ⟨none, none⟩, dirty := false, ctr := 0, trace := [] }

/-- The repository state carried by a `flow-ship` outcome. -/
def ShipRes.stateOf : ShipRes → Option RepoState
  | .usage => none
  | .notMain s => some s
  | .dirtyTree s => some s
  | .noStaging s => some s
  | .noProduction s => some s
  | .nothingToShip s => some s
  | .noPkg s => some s
  | .declined s => some s
  | .qualityFail s => some s
  | .crashed s => some s
  | .success s => some s

/-- A demonstration snapshot: the package at version `2.1.0`, no changelog
file yet (the spec's end-to-end Ship scenario). -/
def demoSnap : Snapshot :=
  { pkg := some { name := "demo", version := "2.1.0" }, changelog := none }

/-- The base commit both `main` and `production` point at. -/
def demoBase : Commit := { hist := [(0, "chore: init")], snap := demoSnap }

/-- `staging`, three commits ahead of `production`. -/
def demoFeat : Commit :=
  { hist := [(3, "feat: three"), (2, "feat: two"), (1, "feat: one"), (0, "chore: init")]
    snap := demoSnap }

/-- The spec's end-to-end Ship scenario: clean `main`, `staging` three
commits ahead of `production`, everything in sync with origin. -/
def demoS0 : RepoState :=
  { main := demoBase, staging := demoFeat, production := demoBase
    omain := demoBase, ostaging := demoFeat, oproduction := demoBase
    hasStaging := true, hasProduction := true, hotfixBr := none
    current := "main", wt := demoSnap, dirty := false, ctr := 4, trace := [] }

/-- Ship input of the scenario: `minor` bump, operator answers `y`,
quality gate passes. -/
def demoShip : ShipInput :=
  { bumpType := "minor", confirmLine := "y", qualityOk := true, today := "2026-10-12" }

/-- The terminal state of the successful demonstration run. -/
def demoShipFinal : RepoState := ((shipFlow demoShip demoS0).stateOf).getD emptyRepo

/-- The terminal state of the demonstration run with a failing quality
gate. -/
def demoQFFinal : RepoState :=
  ((shipFlow { demoShip with qualityOk := false } demoS0).stateOf).getD emptyRepo

/-- A snapshot with no `package.json` at all. -/
def noPkgSnap : Snapshot := { pkg := none, changelog := none }

/-- A commit whose tree has no `package.json`. -/
def noPkgCommit : Commit := { hist := [(0, "chore: init")], snap := noPkgSnap }

/-- A repository whose tree has no `package.json` (for the `flow-release`
guard). -/
def demoRelS0 : RepoState :=
  { main := noPkgCommit, staging := noPkgCommit, production := noPkgCommit
    omain := noPkgCommit, ostaging := noPkgCommit, oproduction := noPkgCommit
    hasStaging := true, hasProduction := true, hotfixBr := none
    current := "main", wt := noPkgSnap, dirty := false, ctr := 1, trace := [] }

/-- Release input: no message arguments, quality gate would pass, `fix`
changes nothing. -/
def demoRel : RelInput := { args := [], qualityOk := true, fixDirties := false }

/-- Hotfix-finish input for the guard demonstrations. -/
def demoHf : HfInput := { qualityOk := true, today := "2026-10-12" }

/-- The post-pull state of the `flow-release` demonstration run. -/
def demoRelS1 : RepoState := (gitPullFFOnly "main" (gitFetch demoRelS0)).getD emptyRepo

/-- Representation invariant of the commit-id model: every id reachable
from any ref is below the fresh-id counter. -/
def IdsBelow (s : RepoState) : Prop :=
  (∀ p ∈ s.main.hist, p.1 < s.ctr) ∧ (∀ p ∈ s.staging.hist, p.1 < s.ctr) ∧
    (∀ p ∈ s.production.hist, p.1 < s.ctr) ∧ (∀ p ∈ s.omain.hist, p.1 < s.ctr) ∧
    (∀ p ∈ s.ostaging.hist, p.1 < s.ctr) ∧ (∀ p ∈ s.oproduction.hist, p.1 < s.ctr)

instance (s : RepoState) : Decidable (IdsBelow s) := by
  unfold IdsBelow
  infer_instance

/-- The existing changelog document of the repository's own
`insertChangelog` unit tests. -/
def demoChangelogA : List Char :=
  "# Changelog\n\n## [1.0.0] - 2025-01-01\n\n- old entry\n".toList

/-- The entry inserted into it by those tests. -/
def demoEntryB : List Char := "## [1.1.0] - 2025-02-01\n\n- new entry\n".toList

/-! ## Helper lemmas -/

theorem toList_mk (cs : List Char) : (String.mk cs).toList = cs := rfl

theorem mk_append (a b : List Char) :
    String.mk a ++ String.mk b = String.mk (a ++ b) := rfl

theorem isDigitC_iff_mem {c : Char} :
    isDigitC c = true ↔ c ∈ ['0', '1', '2', '3', '4', '5', '6', '7', '8', '9'] := by
  unfold isDigitC digitVal?
  split_ifs <;> simp_all

theorem digit_char_facts {c : Char} (h : isDigitC c = true) :
    isWs c = false ∧ radixTag c = false ∧ c ≠ '+' ∧ c ≠ '-' ∧ c ≠ '.' ∧ c ≠ 'I' := by
  rw [isDigitC_iff_mem] at h
  fin_cases h <;> exact ⟨rfl, rfl, by decide, by decide, by decide, by decide⟩

theorem takeWhile_all {α : Type} {p : α → Bool} {l : List α}
    (h : ∀ a ∈ l, p a = true) : l.takeWhile p = l := by
  induction l with
  | nil => rfl
  | cons a t ih =>
    rw [List.takeWhile_cons_of_pos (h a (List.mem_cons_self a t))]
    rw [ih fun x hx => h x (List.mem_cons_of_mem a hx)]

theorem dropWhile_all {α : Type} {p : α → Bool} {l : List α}
    (h : ∀ a ∈ l, p a = true) : l.dropWhile p = [] := by
  induction l with
  | nil => rfl
  | cons a t ih =>
    rw [List.dropWhile_cons_of_pos (h a (List.mem_cons_self a t))]
    exact ih fun x hx => h x (List.mem_cons_of_mem a hx)

theorem digitVal?_decDigit {n : Nat} (h : n < 10) : digitVal? (decDigit n) = some n := by
  interval_cases n <;> rfl

theorem natToDecimalAux_spec :
    ∀ fuel n, n < fuel →
      natToDecimalAux fuel n ≠ [] ∧
        (∀ c ∈ natToDecimalAux fuel n, isDigitC c = true) ∧
        digitsVal (natToDecimalAux fuel n) = n := by
  intro fuel
  induction fuel with
  | zero => intro n h; omega
  | succ f ih =>
    intro n hn
    have heq : natToDecimalAux (f + 1) n =
        (if n < 10 then [decDigit n]
         else natToDecimalAux f (n / 10) ++ [decDigit (n % 10)]) := rfl
    by_cases h10 : n < 10
    · have he : natToDecimalAux (f + 1) n = [decDigit n] := by
        rw [heq, if_pos h10]
      rw [he]
      refine ⟨by simp, ?_, ?_⟩
      · intro c hc
        rw [List.mem_singleton] at hc
        subst hc
        unfold isDigitC
        rw [digitVal?_decDigit h10]
        rfl
      · unfold digitsVal
        simp [digitVal?_decDigit h10]
    · have he : natToDecimalAux (f + 1) n =
          natToDecimalAux f (n / 10) ++ [decDigit (n % 10)] := by
        rw [heq, if_neg h10]
      have hdiv : n / 10 < f := by
        have h1 : n / 10 < n := Nat.div_lt_self (by omega) (by omega)
        omega
      obtain ⟨hne, hdig, hval⟩ := ih (n / 10) hdiv
      have hm : n % 10 < 10 := Nat.mod_lt n (by omega)
      rw [he]
      refine ⟨by simp, ?_, ?_⟩
      · intro c hc
        rcases List.mem_append.mp hc with h1 | h1
        · exact hdig c h1
        · rw [List.mem_singleton] at h1
          subst h1
          unfold isDigitC
          rw [digitVal?_decDigit hm]
          rfl
      · unfold digitsVal
        rw [List.foldl_append]
        unfold digitsVal at hval
        rw [hval]
        simp [digitVal?_decDigit hm]
        omega

theorem natToDecimal_spec (n : Nat) :
    natToDecimal n ≠ [] ∧ (∀ c ∈ natToDecimal n, isDigitC c = true) ∧
      digitsVal (natToDecimal n) = n :=
  natToDecimalAux_spec (n + 1) n (Nat.lt_succ_self n)

theorem not_mem_of_digits {cs : List Char} {c0 : Char}
    (hd : ∀ c ∈ cs, isDigitC c = true) (h0 : isDigitC c0 = false) : c0 ∉ cs :=
  fun hm => by rw [hd c0 hm] at h0; cases h0

theorem trimWs_of_digits {cs : List Char} (h : ∀ c ∈ cs, isDigitC c = true) :
    trimWs cs = cs := by
  unfold trimWs
  cases cs with
  | nil => rfl
  | cons a t =>
    have ha : isWs a = false := (digit_char_facts (h a (by simp))).1
    rw [List.dropWhile_cons_of_neg (by simp [ha])]
    cases hrev : (a :: t).reverse with
    | nil => exact absurd hrev (by simp)
    | cons b u =>
      have hb : b ∈ a :: t := by
        have hm : b ∈ (a :: t).reverse := by rw [hrev]; exact List.mem_cons_self b u
        exact List.mem_reverse.mp hm
      have hbws : isWs b = false := (digit_char_facts (h b hb)).1
      rw [List.dropWhile_cons_of_neg (by simp [hbws]), ← hrev, List.reverse_reverse]

theorem parseUnsignedDec_digits {cs : List Char} (hne : cs ≠ [])
    (hd : ∀ c ∈ cs, isDigitC c = true) :
    parseUnsignedDec cs = some ⟨(digitsVal cs : Int), 0⟩ := by
  unfold parseUnsignedDec
  rw [takeWhile_all hd, dropWhile_all hd]
  simp only [if_neg hne]
  rfl

theorem mathNumL_digits {cs : List Char} (hne : cs ≠ [])
    (hd : ∀ c ∈ cs, isDigitC c = true) :
    mathNumL cs = .val ⟨(digitsVal cs : Int), 0⟩ := by
  obtain ⟨a, t, rfl⟩ : ∃ a t, cs = a :: t := by
    cases cs with
    | nil => exact absurd rfl hne
    | cons a t => exact ⟨a, t, rfl⟩
  have hfa := digit_char_facts (hd a (by simp))
  have hrad : isRadixPrefix (a :: t) = false := by
    cases t with
    | nil => rfl
    | cons b u =>
      have hb : radixTag b = false := (digit_char_facts (hd b (by simp))).2.1
      simp [isRadixPrefix, hb]
  have hinf : a :: t ≠ "Infinity".toList := by
    intro he
    rw [show "Infinity".toList = 'I' :: "nfinity".toList from rfl] at he
    injection he with h1 h2
    exact hfa.2.2.2.2.2 h1
  unfold mathNumL
  rw [trimWs_of_digits hd]
  rw [if_neg (by simp : ¬(a :: t = []))]
  rw [hrad]
  simp only [Bool.false_eq_true, if_false]
  have hps : parseSigned (a :: t) =
      (if a = '+' then parseUnsigned t false
       else if a = '-' then parseUnsigned t true
       else parseUnsigned (a :: t) false) := rfl
  rw [hps, if_neg hfa.2.2.1, if_neg hfa.2.2.2.1]
  unfold parseUnsigned
  rw [if_neg hinf, parseUnsignedDec_digits hne hd]
  rfl

/-! ## Binary64 rounding: exactness on representable integers -/

theorem natLog2F_spec : ∀ fuel n, 1 ≤ n → n ≤ fuel →
    2 ^ natLog2F fuel n ≤ n ∧ n < 2 ^ (natLog2F fuel n + 1) := by
  intro fuel
  induction fuel with
  | zero => intro n h1 h2; omega
  | succ f ih =>
    intro n h1 h2
    have heq : natLog2F (f + 1) n =
        (if n ≤ 1 then 0 else natLog2F f (n / 2) + 1) := rfl
    by_cases hn : n ≤ 1
    · rw [heq, if_pos hn]
      have hn1 : n = 1 := by omega
      subst hn1
      exact ⟨by norm_num, by norm_num⟩
    · rw [heq, if_neg hn]
      have hd1 : 1 ≤ n / 2 := by omega
      have hd2 : n / 2 ≤ f := by omega
      obtain ⟨hl, hr⟩ := ih (n / 2) hd1 hd2
      have e1 : 2 ^ (natLog2F f (n / 2) + 1) = 2 * 2 ^ natLog2F f (n / 2) := by ring
      have e2 : 2 ^ (natLog2F f (n / 2) + 1 + 1) =
          2 * 2 ^ (natLog2F f (n / 2) + 1) := by ring
      constructor
      · rw [e1]; omega
      · have hr2 : n / 2 < 2 * 2 ^ natLog2F f (n / 2) := by rw [← e1]; exact hr
        rw [e2, e1]; omega

theorem natLog2_spec {n : Nat} (h : 1 ≤ n) :
    2 ^ natLog2 n ≤ n ∧ n < 2 ^ (natLog2 n + 1) :=
  natLog2F_spec n n h (le_refl n)

theorem natLog2_unique {n L : Nat} (h1 : 1 ≤ n) (hlo : 2 ^ L ≤ n)
    (hhi : n < 2 ^ (L + 1)) : natLog2 n = L := by
  have hs := natLog2_spec h1
  by_contra hc
  rcases Nat.lt_or_ge (natLog2 n) L with h | h
  · have hp : 2 ^ (natLog2 n + 1) ≤ 2 ^ L := Nat.pow_le_pow_right (by omega) (by omega)
    omega
  · have hL : L + 1 ≤ natLog2 n := by omega
    have hp : 2 ^ (L + 1) ≤ 2 ^ natLog2 n := Nat.pow_le_pow_right (by omega) hL
    omega

theorem natLog2_le_52 {W : Nat} (h1 : 1 ≤ W) (h : W < 2 ^ 53) : natLog2 W ≤ 52 := by
  by_contra hc
  push_neg at hc
  have hs := (natLog2_spec h1).1
  have hp : 2 ^ 53 ≤ 2 ^ natLog2 W := Nat.pow_le_pow_right (by omega) (by omega)
  omega

theorem natLog2_two_pow_53 : natLog2 (2 ^ 53) = 53 :=
  natLog2_unique (by norm_num) (le_refl _) (Nat.pow_lt_pow_right (by omega) (by omega))

theorem natLog2_mul {W q : Nat} (hW : 1 ≤ W) (hq : 1 ≤ q) :
    natLog2 W + natLog2 q ≤ natLog2 (W * q) ∧
      natLog2 (W * q) ≤ natLog2 W + natLog2 q + 1 := by
  have hWs := natLog2_spec hW
  have hqs := natLog2_spec hq
  have hWq : 1 ≤ W * q := Nat.one_le_iff_ne_zero.mpr (by positivity)
  have hps := natLog2_spec hWq
  constructor
  · by_contra hc
    push_neg at hc
    have h1 : 2 ^ (natLog2 (W * q) + 1) ≤ 2 ^ (natLog2 W + natLog2 q) :=
      Nat.pow_le_pow_right (by omega) (by omega)
    have h2 : 2 ^ (natLog2 W + natLog2 q) = 2 ^ natLog2 W * 2 ^ natLog2 q := by ring
    have h3 : 2 ^ natLog2 W * 2 ^ natLog2 q ≤ W * q := Nat.mul_le_mul hWs.1 hqs.1
    omega
  · by_contra hc
    push_neg at hc
    have h1 : 2 ^ (natLog2 W + natLog2 q + 2) ≤ 2 ^ natLog2 (W * q) :=
      Nat.pow_le_pow_right (by omega) (by omega)
    have h3 : W * q < 2 ^ (natLog2 W + 1) * 2 ^ (natLog2 q + 1) :=
      Nat.mul_lt_mul'' hWs.2 hqs.2
    have h2 : 2 ^ (natLog2 W + 1) * 2 ^ (natLog2 q + 1) =
        2 ^ (natLog2 W + natLog2 q + 2) := by ring
    omega

theorem rdivEven_dvd {a b : Nat} (hb : 0 < b) (h : b ∣ a) :
    rdivEven a b = a / b := by
  obtain ⟨c, rfl⟩ := h
  have hr : b * c % b = 0 := by
    rw [mul_comm]
    exact Nat.mul_mod_left c b
  simp only [rdivEven]
  rw [hr, if_pos (by omega : 2 * 0 < b)]

theorem rdivEven_le (a b : Nat) :
    a / b ≤ rdivEven a b ∧ rdivEven a b ≤ a / b + 1 := by
  simp only [rdivEven]
  split_ifs <;> omega

theorem rdivEven_mul_left {a b c : Nat} (hc : 0 < c) :
    rdivEven (c * a) (c * b) = rdivEven a b := by
  simp only [rdivEven]
  rw [Nat.mul_div_mul_left _ _ hc, Nat.mul_mod_mul_left]
  have h1 : (2 * (c * (a % b)) < c * b) ↔ (2 * (a % b) < b) := by
    rw [show 2 * (c * (a % b)) = c * (2 * (a % b)) from by ring]
    exact Nat.mul_lt_mul_left hc
  have h2 : (c * b < 2 * (c * (a % b))) ↔ (b < 2 * (a % b)) := by
    rw [show 2 * (c * (a % b)) = c * (2 * (a % b)) from by ring]
    exact Nat.mul_lt_mul_left hc
  simp only [h1, h2]

theorem roundPos_eval {p q : Nat} {n : Int}
    (hn : (if qle2 q ((natLog2 p : Int) - (natLog2 q : Int)) p
        then ((natLog2 p : Int) - (natLog2 q : Int))
        else ((natLog2 p : Int) - (natLog2 q : Int)) - 1) = n) :
    roundPos p q =
      (if (if 0 ≤ max (n - 52) (-1074) then
            rdivEven p (q * 2 ^ (max (n - 52) (-1074)).toNat)
          else rdivEven (p * 2 ^ (-max (n - 52) (-1074)).toNat) q) = 2 ^ 53 then
        (2 ^ 52, max (n - 52) (-1074) + 1)
      else
        ((if 0 ≤ max (n - 52) (-1074) then
            rdivEven p (q * 2 ^ (max (n - 52) (-1074)).toNat)
          else rdivEven (p * 2 ^ (-max (n - 52) (-1074)).toNat) q),
          max (n - 52) (-1074))) := by
  simp only [roundPos]
  rw [hn]

/-- Exactness of binary64 rounding on representable integers: for
`1 ≤ W ≤ 2 ^ 53` the rational `(W * q) / q` rounds to exactly `W`. -/
theorem roundPos_exact {W q : Nat} (hq : 0 < q) (hW1 : 1 ≤ W) (hW : W ≤ 2 ^ 53) :
    roundPos (W * q) q = cPair W := by
  have hq1 : 1 ≤ q := hq
  have hWs := natLog2_spec hW1
  have hmul := natLog2_mul hW1 hq1
  have hn : (if qle2 q ((natLog2 (W * q) : Int) - (natLog2 q : Int)) (W * q)
      then ((natLog2 (W * q) : Int) - (natLog2 q : Int))
      else ((natLog2 (W * q) : Int) - (natLog2 q : Int)) - 1) = (natLog2 W : Int) := by
    rcases (by omega :
        natLog2 (W * q) = natLog2 W + natLog2 q ∨
          natLog2 (W * q) = natLog2 W + natLog2 q + 1) with hd | hd
    · have hcond : qle2 q ((natLog2 (W * q) : Int) - (natLog2 q : Int)) (W * q) = true := by
        unfold qle2
        rw [if_pos (by omega : (0 : Int) ≤ (natLog2 (W * q) : Int) - (natLog2 q : Int))]
        rw [decide_eq_true_eq]
        rw [show (((natLog2 (W * q) : Int) - (natLog2 q : Int))).toNat = natLog2 W
          from by omega]
        calc q * 2 ^ natLog2 W = 2 ^ natLog2 W * q := by ring
          _ ≤ W * q := Nat.mul_le_mul_right q hWs.1
      rw [hcond, if_pos rfl]
      omega
    · have hcond : qle2 q ((natLog2 (W * q) : Int) - (natLog2 q : Int)) (W * q) = false := by
        unfold qle2
        rw [if_pos (by omega : (0 : Int) ≤ (natLog2 (W * q) : Int) - (natLog2 q : Int))]
        rw [decide_eq_false_iff_not]
        rw [show (((natLog2 (W * q) : Int) - (natLog2 q : Int))).toNat = natLog2 W + 1
          from by omega]
        push_neg
        calc W * q < 2 ^ (natLog2 W + 1) * q := (Nat.mul_lt_mul_right hq).mpr hWs.2
          _ = q * 2 ^ (natLog2 W + 1) := by ring
      rw [hcond]
      simp only [Bool.false_eq_true, if_false]
      omega
  rw [roundPos_eval hn]
  by_cases h53 : W = 2 ^ 53
  · subst h53
    rw [natLog2_two_pow_53]
    rw [show max (((53 : Nat) : Int) - 52) (-1074) = 1 from by omega]
    rw [if_pos (by omega : (0 : Int) ≤ 1)]
    rw [show ((1 : Int)).toNat = 1 from rfl]
    have ht : rdivEven (2 ^ 53 * q) (q * 2 ^ 1) = 2 ^ 52 := by
      rw [rdivEven_dvd (by positivity) ⟨2 ^ 52, by ring⟩]
      rw [show (2 : Nat) ^ 53 * q = q * 2 ^ 1 * 2 ^ 52 from by ring]
      exact Nat.mul_div_cancel_left _ (by positivity)
    rw [ht]
    rw [if_neg (by norm_num)]
    rw [cPair, if_pos rfl]
  · have hWlt : W < 2 ^ 53 := by omega
    have hL52 := natLog2_le_52 hW1 hWlt
    rw [show max (((natLog2 W : Nat) : Int) - 52) (-1074) = (natLog2 W : Int) - 52
      from by omega]
    by_cases h52 : natLog2 W = 52
    · rw [h52]
      rw [if_pos (by omega : (0 : Int) ≤ ((52 : Nat) : Int) - 52)]
      rw [show ((((52 : Nat) : Int) - 52)).toNat = 0 from by omega]
      rw [pow_zero, mul_one]
      have ht : rdivEven (W * q) q = W := by
        rw [rdivEven_dvd hq ⟨W, by ring⟩]
        exact Nat.mul_div_cancel _ hq
      rw [ht]
      rw [if_neg h53]
      rw [cPair, if_neg h53, h52]
      norm_num
    · have hLlt : natLog2 W < 52 := by omega
      rw [if_neg (by omega : ¬ (0 : Int) ≤ (natLog2 W : Int) - 52)]
      rw [show (-((natLog2 W : Int) - 52)).toNat = 52 - natLog2 W from by omega]
      have ht : rdivEven (W * q * 2 ^ (52 - natLog2 W)) q = W * 2 ^ (52 - natLog2 W) := by
        rw [rdivEven_dvd hq ⟨W * 2 ^ (52 - natLog2 W), by ring⟩]
        rw [show W * q * 2 ^ (52 - natLog2 W) = q * (W * 2 ^ (52 - natLog2 W)) from by ring]
        exact Nat.mul_div_cancel_left _ hq
      rw [ht]
      have hlt : W * 2 ^ (52 - natLog2 W) < 2 ^ 53 := by
        have hstep : W * 2 ^ (52 - natLog2 W) <
            2 ^ (natLog2 W + 1) * 2 ^ (52 - natLog2 W) :=
          (Nat.mul_lt_mul_right (by positivity)).mpr hWs.2
        have he : 2 ^ (natLog2 W + 1) * 2 ^ (52 - natLog2 W) = 2 ^ 53 := by
          rw [← pow_add]
          congr 1
          omega
        omega
      rw [if_neg (by omega)]
      rw [cPair, if_neg h53]

theorem cPair_fst_pos {W : Nat} (hW : 1 ≤ W) : 0 < (cPair W).1 := by
  unfold cPair
  split_ifs
  · positivity
  · show 0 < W * 2 ^ (52 - natLog2 W)
    positivity

theorem cPair_snd_le {W : Nat} (hW1 : 1 ≤ W) (hW : W ≤ 2 ^ 53) : (cPair W).2 ≤ 1 := by
  unfold cPair
  split_ifs with h
  · exact le_refl 1
  · show (natLog2 W : Int) - 52 ≤ 1
    have := natLog2_le_52 hW1 (by omega)
    omega

theorem cPair_snd_eq_one {W : Nat} (hW1 : 1 ≤ W) (hW : W ≤ 2 ^ 53)
    (h : (cPair W).2 = 1) : W = 2 ^ 53 := by
  by_contra hc
  rw [cPair, if_neg hc] at h
  have hL : natLog2 W = 53 := by
    have : ((natLog2 W : Int) - 52) = 1 := h
    omega
  have hs := (natLog2_spec hW1).1
  rw [hL] at hs
  omega

theorem cPair_inj {U W : Nat} (hU1 : 1 ≤ U) (hU : U ≤ 2 ^ 53)
    (hW1 : 1 ≤ W) (hW : W ≤ 2 ^ 53) (h : cPair U = cPair W) : U = W := by
  by_cases hU53 : U = 2 ^ 53 <;> by_cases hW53 : W = 2 ^ 53
  · omega
  · exfalso
    apply hW53
    apply cPair_snd_eq_one hW1 hW
    rw [← h, hU53, cPair, if_pos rfl]
  · exfalso
    apply hU53
    apply cPair_snd_eq_one hU1 hU
    rw [h, hW53, cPair, if_pos rfl]
  · rw [cPair, if_neg hU53, cPair, if_neg hW53] at h
    have h1 : U * 2 ^ (52 - natLog2 U) = W * 2 ^ (52 - natLog2 W) :=
      congrArg Prod.fst h
    have h2 : (natLog2 U : Int) - 52 = (natLog2 W : Int) - 52 := congrArg Prod.snd h
    have hL : natLog2 U = natLog2 W := by omega
    rw [hL] at h1
    have hp : 0 < 2 ^ (52 - natLog2 W) := by positivity
    exact Nat.eq_of_mul_eq_mul_right hp h1

theorem mkFin_cPair {W : Nat} (hW1 : 1 ≤ W) (hW : W ≤ 2 ^ 53) :
    mkFin false (cPair W) = dblNat W := by
  unfold mkFin dblNat
  rw [if_neg (by have := cPair_fst_pos hW1; omega)]
  rw [if_neg (by have := cPair_snd_le hW1 hW; omega)]
  rw [if_neg (by omega)]

theorem roundDec_int {W : Nat} (hW : W ≤ 2 ^ 53) :
    roundDec ⟨(W : Int), 0⟩ = dblNat W := by
  by_cases h0 : W = 0
  · subst h0; rfl
  · have hW1 : 1 ≤ W := by omega
    simp only [roundDec]
    rw [if_neg (by omega : ¬ ((W : Nat) : Int) = 0)]
    rw [if_pos (le_refl (0 : Int))]
    rw [show (((W : Nat) : Int)).natAbs * 10 ^ (((0 : Int)).toNat) = W * 1 from by simp]
    rw [roundPos_exact one_pos hW1 hW]
    rw [show decide (((W : Nat) : Int) < 0) = false from decide_eq_false (by omega)]
    exact mkFin_cPair hW1 hW

theorem dblNat_inj {U W : Nat} (hU : U ≤ 2 ^ 53) (hW : W ≤ 2 ^ 53)
    (h : dblNat U = dblNat W) : U = W := by
  unfold dblNat at h
  split_ifs at h with h1 h2 h3
  · omega
  · injection h with e1 e2 e3
    have := cPair_fst_pos (show 1 ≤ W by omega)
    omega
  · injection h with e1 e2 e3
    have := cPair_fst_pos (show 1 ≤ U by omega)
    omega
  · injection h with e1 e2 e3
    exact cPair_inj (by omega) hU (by omega) hW (Prod.ext e2 e3)

theorem jsIsNaN_roundDec (d : Dec10) : jsIsNaN (roundDec d) = false := by
  simp only [roundDec, mkFin]
  split_ifs <;> rfl

theorem jsIsNaN_dblNat (W : Nat) : jsIsNaN (dblNat W) = false := by
  unfold dblNat
  split_ifs <;> rfl

theorem jsNumberL_digits {cs : List Char} (hne : cs ≠ [])
    (hd : ∀ c ∈ cs, isDigitC c = true) :
    jsNumberL cs = roundDec ⟨(digitsVal cs : Int), 0⟩ := by
  simp only [jsNumberL, mathNumL_digits hne hd]

theorem jsOne_eq : jsOne = .val false (2 ^ 52) (-52) := by decide

theorem jsAdd_dblNat_one {M : Nat} (h : M < 2 ^ 53) :
    jsAdd (dblNat M) jsOne = dblNat (M + 1) := by
  rw [jsOne_eq]
  by_cases h0 : M = 0
  · subst h0; decide
  · have h1 : 1 ≤ M := by omega
    have hL := natLog2_le_52 h1 h
    have hWs := natLog2_spec h1
    have hcp : dblNat M =
        .val false (M * 2 ^ (52 - natLog2 M)) ((natLog2 M : Int) - 52) := by
      unfold dblNat cPair
      rw [if_neg h0, if_neg (by omega)]
    rw [hcp]
    simp only [jsAdd]
    simp only [if_neg Bool.false_ne_true]
    rw [show min ((natLog2 M : Int) - 52) (-52 : Int) = -52 from by omega]
    rw [show (((natLog2 M : Int) - 52) - (-52 : Int)).toNat = natLog2 M from by omega]
    rw [show ((-52 : Int) - (-52 : Int)).toNat = 0 from by omega]
    have hS : ((M * 2 ^ (52 - natLog2 M) : Nat) : Int) * 2 ^ natLog2 M +
        ((2 ^ 52 : Nat) : Int) * 2 ^ 0 = (((M + 1) * 2 ^ 52 : Nat) : Int) := by
      have e : (2 : Int) ^ (52 - natLog2 M) * 2 ^ natLog2 M = 2 ^ 52 := by
        rw [← pow_add]
        congr 1
        omega
      push_cast
      linear_combination (M : Int) * e
    rw [hS]
    rw [show decide ((((M + 1) * 2 ^ 52 : Nat) : Int) < 0) = false from
      decide_eq_false (by omega)]
    rw [Int.natAbs_ofNat]
    unfold roundDyadic
    rw [if_neg (by positivity : ¬ (M + 1) * 2 ^ 52 = 0)]
    rw [if_neg (by omega : ¬ (0 : Int) ≤ -52)]
    rw [show ((-(-52 : Int)).toNat) = 52 from rfl]
    rw [roundPos_exact (by positivity) (by omega) (by omega)]
    exact mkFin_cPair (by omega) (by omega)

/-! ## Rendering: exactness on representable integers -/

theorem natToDecimalAux_fuel : ∀ f f' n, n < f → n < f' →
    natToDecimalAux f n = natToDecimalAux f' n := by
  intro f
  induction f with
  | zero => intro f' n h _; omega
  | succ g ih =>
    intro f' n hf hf'
    cases f' with
    | zero => omega
    | succ g' =>
      have e1 : natToDecimalAux (g + 1) n =
          (if n < 10 then [decDigit n]
           else natToDecimalAux g (n / 10) ++ [decDigit (n % 10)]) := rfl
      have e2 : natToDecimalAux (g' + 1) n =
          (if n < 10 then [decDigit n]
           else natToDecimalAux g' (n / 10) ++ [decDigit (n % 10)]) := rfl
      rw [e1, e2]
      by_cases h10 : n < 10
      · rw [if_pos h10, if_pos h10]
      · rw [if_neg h10, if_neg h10]
        rw [ih g' (n / 10) (by omega) (by omega)]

theorem natToDecimalAux_length : ∀ fuel n, n < fuel → 1 ≤ n →
    1 ≤ (natToDecimalAux fuel n).length ∧
      10 ^ ((natToDecimalAux fuel n).length - 1) ≤ n ∧
      n < 10 ^ (natToDecimalAux fuel n).length := by
  intro fuel
  induction fuel with
  | zero => intro n h _; omega
  | succ f ih =>
    intro n hn h1
    have heq : natToDecimalAux (f + 1) n =
        (if n < 10 then [decDigit n]
         else natToDecimalAux f (n / 10) ++ [decDigit (n % 10)]) := rfl
    by_cases h10 : n < 10
    · rw [heq, if_pos h10]
      refine ⟨by simp, by simpa using h1, by simpa using h10⟩
    · rw [heq, if_neg h10]
      have hdiv : n / 10 < f := by omega
      have hd1 : 1 ≤ n / 10 := by omega
      obtain ⟨hL1, hlo, hhi⟩ := ih (n / 10) hdiv hd1
      rw [List.length_append, List.length_singleton]
      refine ⟨by omega, ?_, ?_⟩
      · have e : (natToDecimalAux f (n / 10)).length + 1 - 1 =
            (natToDecimalAux f (n / 10)).length := by omega
        rw [e]
        have e2 : (10 : Nat) ^ (natToDecimalAux f (n / 10)).length =
            10 * 10 ^ ((natToDecimalAux f (n / 10)).length - 1) := by
          rw [← pow_succ']
          congr 1
          omega
        rw [e2]
        omega
      · have e2 : (10 : Nat) ^ ((natToDecimalAux f (n / 10)).length + 1) =
            10 * 10 ^ (natToDecimalAux f (n / 10)).length := by rw [pow_succ']
        rw [e2]
        omega

theorem natToDecimal_length {W : Nat} (hW : 1 ≤ W) :
    1 ≤ (natToDecimal W).length ∧
      10 ^ ((natToDecimal W).length - 1) ≤ W ∧ W < 10 ^ (natToDecimal W).length :=
  natToDecimalAux_length (W + 1) W (Nat.lt_succ_self W) hW

theorem natToDecimal_mul_pow10 {s : Nat} (hs : 1 ≤ s) (j : Nat) :
    natToDecimal (s * 10 ^ j) = natToDecimal s ++ List.replicate j '0' := by
  induction j with
  | zero => simp
  | succ i ih =>
    have hp10 : (10 : Nat) ≤ 10 ^ (i + 1) := by
      calc (10 : Nat) = 10 ^ 1 := by norm_num
        _ ≤ 10 ^ (i + 1) := Nat.pow_le_pow_right (by omega) (by omega)
    have hbig : 10 ≤ s * 10 ^ (i + 1) := by
      calc (10 : Nat) ≤ 10 ^ (i + 1) := hp10
        _ = 1 * 10 ^ (i + 1) := by ring
        _ ≤ s * 10 ^ (i + 1) := Nat.mul_le_mul_right _ hs
    have heq : natToDecimal (s * 10 ^ (i + 1)) =
        (if s * 10 ^ (i + 1) < 10 then [decDigit (s * 10 ^ (i + 1))]
         else natToDecimalAux (s * 10 ^ (i + 1)) (s * 10 ^ (i + 1) / 10) ++
           [decDigit (s * 10 ^ (i + 1) % 10)]) := rfl
    rw [heq, if_neg (by omega)]
    have hdiv : s * 10 ^ (i + 1) / 10 = s * 10 ^ i := by
      rw [pow_succ, ← mul_assoc]
      exact Nat.mul_div_cancel _ (by omega)
    have hmod : s * 10 ^ (i + 1) % 10 = 0 := by
      rw [pow_succ, ← mul_assoc]
      exact Nat.mul_mod_left _ 10
    rw [hdiv, hmod]
    have hfa : natToDecimalAux (s * 10 ^ (i + 1)) (s * 10 ^ i) =
        natToDecimal (s * 10 ^ i) := by
      unfold natToDecimal
      apply natToDecimalAux_fuel
      · exact (Nat.mul_lt_mul_left (by omega)).mpr
          (Nat.pow_lt_pow_right (by omega) (by omega))
      · omega
    rw [hfa, ih]
    rw [show decDigit 0 = '0' from rfl]
    rw [List.replicate_succ']
    rw [List.append_assoc]

theorem decExpUp_spec {P Q : Nat} {jstar : Nat}
    (hcond : P < Q * 10 ^ (jstar + 1))
    (hmin : ∀ i, i < jstar → ¬ P < Q * 10 ^ (i + 1)) :
    ∀ fuel j, j ≤ jstar → jstar ≤ j + fuel → decExpUp P Q fuel j = jstar := by
  intro fuel
  induction fuel with
  | zero =>
    intro j h1 h2
    have he : j = jstar := by omega
    rw [he]
    rfl
  | succ f ih =>
    intro j h1 h2
    have heq : decExpUp P Q (f + 1) j =
        (if P < Q * 10 ^ (j + 1) then j else decExpUp P Q f (j + 1)) := rfl
    by_cases hj : j = jstar
    · rw [heq, hj, if_pos hcond]
    · rw [heq, if_neg (hmin j (by omega))]
      exact ih (j + 1) (by omega) (by omega)

theorem decExp_int {W Q : Nat} (hQ : 0 < Q) (hW : 1 ≤ W) (hlt : W < 10 ^ 17) :
    decExp (W * Q) Q = ((natToDecimal W).length : Int) := by
  obtain ⟨hL1, hlo, hhi⟩ := natToDecimal_length hW
  have hDle : (natToDecimal W).length ≤ 17 := by
    by_contra hc
    push_neg at hc
    have hp : (10 : Nat) ^ 17 ≤ 10 ^ ((natToDecimal W).length - 1) :=
      Nat.pow_le_pow_right (by omega) (by omega)
    omega
  unfold decExp
  rw [if_pos (by calc Q = 1 * Q := by ring
    _ ≤ W * Q := Nat.mul_le_mul_right Q hW)]
  have hcond : W * Q < Q * 10 ^ ((natToDecimal W).length - 1 + 1) := by
    rw [show (natToDecimal W).length - 1 + 1 = (natToDecimal W).length from by omega]
    calc W * Q = Q * W := by ring
      _ < Q * 10 ^ (natToDecimal W).length := (Nat.mul_lt_mul_left hQ).mpr hhi
  have hmin : ∀ i, i < (natToDecimal W).length - 1 → ¬ W * Q < Q * 10 ^ (i + 1) := by
    intro i hi
    push_neg
    have hp : (10 : Nat) ^ (i + 1) ≤ 10 ^ ((natToDecimal W).length - 1) :=
      Nat.pow_le_pow_right (by omega) (by omega)
    have h2 : 10 ^ (i + 1) ≤ W := le_trans hp hlo
    calc Q * 10 ^ (i + 1) ≤ Q * W := Nat.mul_le_mul (le_refl Q) h2
      _ = W * Q := by ring
  rw [decExpUp_spec hcond hmin 340 0 (by omega) (by omega)]
  omega

theorem roundDec_shift {s : Nat} {j : Int} (hj : 0 ≤ j) (hs : 1 ≤ s) :
    roundDec ⟨(s : Int), j⟩ = roundDec ⟨((s * 10 ^ j.toNat : Nat) : Int), 0⟩ := by
  have hsp : 0 < s * 10 ^ j.toNat := by positivity
  simp only [roundDec]
  rw [if_neg (by omega : ¬ ((s : Nat) : Int) = 0)]
  rw [if_neg (by omega : ¬ ((s * 10 ^ j.toNat : Nat) : Int) = 0)]
  rw [if_pos hj, if_pos (le_refl (0 : Int))]
  rw [show decide (((s : Nat) : Int) < 0) = false from decide_eq_false (by omega)]
  rw [show decide (((s * 10 ^ j.toNat : Nat) : Int) < 0) = false from
    decide_eq_false (by omega)]
  rw [show (((s : Nat) : Int)).natAbs * 10 ^ j.toNat =
      (((s * 10 ^ j.toNat : Nat) : Int)).natAbs * 10 ^ (((0 : Int)).toNat) from by
    rw [Int.natAbs_ofNat, Int.natAbs_ofNat]
    rw [show (((0 : Int)).toNat) = 0 from rfl, pow_zero, mul_one]]

theorem roundPos_big {U : Nat} (h1 : 2 ^ 53 < U) (h2 : U < 2 ^ 54) :
    roundPos U 1 =
      (if rdivEven U 2 = 2 ^ 53 then ((2 ^ 52 : Nat), (2 : Int))
       else (rdivEven U 2, (1 : Int))) := by
  have hL : natLog2 U = 53 := natLog2_unique (by omega) (by omega) (by omega)
  have hn : (if qle2 1 ((natLog2 U : Int) - (natLog2 1 : Int)) U
      then ((natLog2 U : Int) - (natLog2 1 : Int))
      else ((natLog2 U : Int) - (natLog2 1 : Int)) - 1) = (53 : Int) := by
    rw [hL, show natLog2 1 = 0 from rfl]
    have hcond : qle2 1 (((53 : Nat) : Int) - ((0 : Nat) : Int)) U = true := by
      unfold qle2
      rw [if_pos (by omega)]
      rw [decide_eq_true_eq]
      rw [show ((((53 : Nat) : Int) - ((0 : Nat) : Int))).toNat = 53 from by omega]
      omega
    rw [hcond, if_pos rfl]
    omega
  rw [roundPos_eval hn]
  rw [show max ((53 : Int) - 52) (-1074) = 1 from by omega]
  rw [if_pos (by omega : (0 : Int) ≤ 1)]
  rw [show ((1 : Int)).toNat = 1 from rfl]
  rw [show 1 * 2 ^ 1 = 2 from by norm_num]
  by_cases ht : rdivEven U 2 = 2 ^ 53
  · rw [if_pos ht, if_pos ht]
    norm_num
  · rw [if_neg ht, if_neg ht]

theorem roundDec_int_inj {U W : Nat} (hU1 : 1 ≤ U) (hU : U < 2 ^ 54)
    (hW1 : 1 ≤ W) (hW : W ≤ 2 ^ 53) (hUe : U % 2 = 0)
    (h : roundDec ⟨(U : Int), 0⟩ = dblNat W) : U = W := by
  by_cases hU53 : U ≤ 2 ^ 53
  · rw [roundDec_int hU53] at h
    exact dblNat_inj hU53 hW h
  · exfalso
    push_neg at hU53
    have hdq := rdivEven_le U 2
    have hdm := Nat.div_add_mod U 2
    simp only [roundDec] at h
    rw [if_neg (by omega : ¬ ((U : Nat) : Int) = 0)] at h
    rw [if_pos (le_refl (0 : Int))] at h
    rw [show (((U : Nat) : Int)).natAbs * 10 ^ (((0 : Int)).toNat) = U from by simp] at h
    rw [show decide (((U : Nat) : Int) < 0) = false from decide_eq_false (by omega)] at h
    rw [show roundPos U 1 = roundPos U 1 from rfl] at h
    rw [roundPos_big hU53 hU] at h
    have hdb : dblNat W = .val false (cPair W).1 (cPair W).2 := by
      unfold dblNat
      rw [if_neg (by omega)]
    rw [hdb] at h
    by_cases ht : rdivEven U 2 = 2 ^ 53
    · rw [if_pos ht] at h
      unfold mkFin at h
      rw [if_neg (by norm_num)] at h
      rw [if_neg (by norm_num)] at h
      injection h with e1 e2 e3
      have := cPair_snd_le hW1 hW
      omega
    · rw [if_neg ht] at h
      unfold mkFin at h
      rw [if_neg (by omega : ¬ rdivEven U 2 = 0)] at h
      rw [if_neg (by norm_num : ¬ (971 : Int) < 1)] at h
      injection h with e1 e2 e3
      have hWe : W = 2 ^ 53 := cPair_snd_eq_one hW1 hW e3.symm
      have hcp : (cPair W).1 = 2 ^ 52 := by
        rw [hWe, cPair, if_pos rfl]
      rw [hcp] at e2
      omega

theorem splitOnChar_append {sep : Char} {xs ys : List Char} (h : sep ∉ xs) :
    splitOnChar sep (xs ++ sep :: ys) = xs :: splitOnChar sep ys := by
  induction xs with
  | nil => simp [splitOnChar]
  | cons a t ih =>
    have ha : a ≠ sep := fun e => h (by simp [e])
    have ht : sep ∉ t := fun m => h (by simp [m])
    have hstep : splitOnChar sep ((a :: t) ++ sep :: ys) =
        (if a = sep then [] :: splitOnChar sep (t ++ sep :: ys)
         else
          match splitOnChar sep (t ++ sep :: ys) with
          | h2 :: t2 => (a :: h2) :: t2
          | [] => [[a]]) := rfl
    rw [hstep, if_neg ha, ih ht]

theorem splitOnChar_no_sep {sep : Char} {xs : List Char} (h : sep ∉ xs) :
    splitOnChar sep xs = [xs] := by
  induction xs with
  | nil => rfl
  | cons a t ih =>
    have ha : a ≠ sep := fun e => h (by simp [e])
    have ht : sep ∉ t := fun m => h (by simp [m])
    have hstep : splitOnChar sep (a :: t) =
        (if a = sep then [] :: splitOnChar sep t
         else
          match splitOnChar sep t with
          | h2 :: t2 => (a :: h2) :: t2
          | [] => [[a]]) := rfl
    rw [hstep, if_neg ha, ih ht]

theorem verString_toList (M N P : Nat) :
    (verString M N P).toList =
      natToDecimal M ++ '.' :: (natToDecimal N ++ '.' :: natToDecimal P) := rfl

theorem splitOnChar_verString (M N P : Nat) :
    splitOnChar '.' (verString M N P).toList =
      [natToDecimal M, natToDecimal N, natToDecimal P] := by
  have hM := natToDecimal_spec M
  have hN := natToDecimal_spec N
  have hP := natToDecimal_spec P
  rw [verString_toList]
  rw [splitOnChar_append (not_mem_of_digits hM.2.1 (by decide))]
  rw [splitOnChar_append (not_mem_of_digits hN.2.1 (by decide))]
  rw [splitOnChar_no_sep (not_mem_of_digits hP.2.1 (by decide))]

theorem assemble3 (A B C : List Char) :
    String.mk A ++ "." ++ String.mk B ++ "." ++ String.mk C =
      String.mk (A ++ '.' :: (B ++ '.' :: C)) := by
  rw [show ("." : String) = String.mk ['.'] from rfl]
  rw [mk_append, mk_append, mk_append, mk_append]
  apply congrArg String.mk
  simp [List.append_assoc]

theorem assemble1 (A : List Char) :
    String.mk A ++ ".0.0" = String.mk (A ++ ['.', '0', '.', '0']) := by
  rw [show (".0.0" : String) = String.mk ['.', '0', '.', '0'] from rfl, mk_append]

theorem assemble2 (A B : List Char) :
    String.mk A ++ "." ++ String.mk B ++ ".0" =
      String.mk (A ++ '.' :: (B ++ ['.', '0'])) := by
  rw [show ("." : String) = String.mk ['.'] from rfl,
    show (".0" : String) = String.mk ['.', '0'] from rfl]
  rw [mk_append, mk_append, mk_append]
  apply congrArg String.mk
  simp [List.append_assoc]

theorem tryDigits_int {W Q : Nat} (hQ : 0 < Q) (hW1 : 1 ≤ W) (hW : W ≤ 2 ^ 53) :
    ∀ fuel k, 1 ≤ k → k ≤ (natToDecimal W).length →
      (natToDecimal W).length ≤ k + fuel →
      (let r := tryDigits (W * Q) Q ((natToDecimal W).length : Int) (dblNat W) fuel k
       formatDigits r.1 r.2.1 r.2.2) = natToDecimal W := by
  obtain ⟨hL1, hlo, hhi⟩ := natToDecimal_length hW1
  have hD16 : (natToDecimal W).length ≤ 16 := by
    have h16 : W < 10 ^ 16 := by
      calc W ≤ 2 ^ 53 := hW
        _ < 10 ^ 16 := by norm_num
    by_contra hc
    push_neg at hc
    have hp : (10 : Nat) ^ 16 ≤ 10 ^ ((natToDecimal W).length - 1) :=
      Nat.pow_le_pow_right (by omega) (by omega)
    omega
  have hWne : W ≠ 0 := by omega
  have hdbl : dblNat W = .val false (cPair W).1 (cPair W).2 := by
    unfold dblNat
    rw [if_neg hWne]
  -- the candidate at the full digit count is the number itself
  have hcandD : digitsCand (W * Q) Q ((natToDecimal W).length : Int)
      (natToDecimal W).length = (W, ((natToDecimal W).length : Int)) := by
    unfold digitsCand
    rw [if_pos (le_refl ((natToDecimal W).length : Int))]
    rw [show (((natToDecimal W).length : Int) - ((natToDecimal W).length : Int)).toNat = 0
      from by omega]
    rw [pow_zero, mul_one]
    rw [rdivEven_dvd hQ ⟨W, by ring⟩]
    rw [Nat.mul_div_cancel _ hQ]
    rw [if_neg (by omega)]
  -- the candidate at the full digit count converts back to the value
  have htripD : roundDec ⟨(W : Int),
      ((natToDecimal W).length : Int) - ((natToDecimal W).length : Int)⟩ = dblNat W := by
    rw [show ((natToDecimal W).length : Int) - ((natToDecimal W).length : Int) = 0
      from by omega]
    exact roundDec_int hW
  -- formatting the full-digit-count candidate yields the plain digits
  have hfmtD : formatDigits W ((natToDecimal W).length : Int) (natToDecimal W).length =
      natToDecimal W := by
    unfold formatDigits
    rw [if_pos ⟨le_refl _, by omega⟩]
    rw [show ((((natToDecimal W).length : Int)) - (((natToDecimal W).length : Nat) : Int)).toNat
      = 0 from by omega]
    simp
  -- a shorter candidate that converts back must already be the number
  have hshort : ∀ k, 1 ≤ k → k < (natToDecimal W).length →
      ∀ s nE, digitsCand (W * Q) Q ((natToDecimal W).length : Int) k = (s, nE) →
      roundDec ⟨(s : Int), nE - (k : Int)⟩ = dblNat W →
      formatDigits s nE k = natToDecimal W := by
    intro k hk1 hklt s nE hcand htrip
    have hj1 : 1 ≤ (natToDecimal W).length - k := by omega
    -- identify the candidate
    have hs0 : digitsCand (W * Q) Q ((natToDecimal W).length : Int) k =
        (if rdivEven W (10 ^ ((natToDecimal W).length - k)) = 10 ^ k
         then (10 ^ (k - 1), ((natToDecimal W).length : Int) + 1)
         else (rdivEven W (10 ^ ((natToDecimal W).length - k)),
           ((natToDecimal W).length : Int))) := by
      unfold digitsCand
      rw [if_neg (by omega : ¬ ((natToDecimal W).length : Int) ≤ (k : Int))]
      rw [show (((natToDecimal W).length : Int) - (k : Int)).toNat =
        (natToDecimal W).length - k from by omega]
      rw [show W * Q = Q * W from by ring]
      rw [rdivEven_mul_left hQ]
    -- bounds on the rounded digits
    have hple : 10 ^ ((natToDecimal W).length - k) ≤ W := by
      have hstep : (10 : Nat) ^ ((natToDecimal W).length - k) ≤
          10 ^ ((natToDecimal W).length - 1) :=
        Nat.pow_le_pow_right (by omega) (by omega)
      omega
    have hfl1 : 1 ≤ W / 10 ^ ((natToDecimal W).length - k) :=
      (Nat.one_le_div_iff (by positivity)).mpr hple
    have hflK : W / 10 ^ ((natToDecimal W).length - k) < 10 ^ k := by
      rw [Nat.div_lt_iff_lt_mul (by positivity)]
      calc W < 10 ^ (natToDecimal W).length := hhi
        _ = 10 ^ k * 10 ^ ((natToDecimal W).length - k) := by
          rw [← pow_add]
          congr 1
          omega
    have hdq := rdivEven_le W (10 ^ ((natToDecimal W).length - k))
    -- the value denoted by the candidate, as an integer
    by_cases hcarry : rdivEven W (10 ^ ((natToDecimal W).length - k)) = 10 ^ k
    · -- carry: the candidate denotes 10^DW, which would have to equal W < 10^DW
      exfalso
      rw [hs0, if_pos hcarry] at hcand
      have hse : s = 10 ^ (k - 1) := (((Prod.mk.injEq _ _ _ _).mp hcand).1).symm
      have hnE : nE = ((natToDecimal W).length : Int) + 1 :=
        (((Prod.mk.injEq _ _ _ _).mp hcand).2).symm
      rw [hse, hnE] at htrip
      rw [roundDec_shift (by omega) (Nat.one_le_pow _ _ (by omega))] at htrip
      have hU : 10 ^ (k - 1) *
          10 ^ ((((natToDecimal W).length : Int) + 1 - (k : Int)).toNat) =
          10 ^ (natToDecimal W).length := by
        rw [← pow_add]
        congr 1
        omega
      rw [hU] at htrip
      have hUW : 10 ^ (natToDecimal W).length = W := by
        apply roundDec_int_inj (Nat.one_le_pow _ _ (by omega)) ?_ (by omega) hW ?_ htrip
        · have hstep : (10 : Nat) ^ (natToDecimal W).length ≤ 10 ^ 16 :=
            Nat.pow_le_pow_right (by omega) hD16
          have h54 : (10 : Nat) ^ 16 < 2 ^ 54 := by norm_num
          omega
        · have : (10 : Nat) ∣ 10 ^ (natToDecimal W).length :=
            dvd_pow_self 10 (by omega)
          omega
      omega
    · -- no carry: the candidate is s0 * 10^(DW-k); converting back forces it to be W
      rw [hs0, if_neg hcarry] at hcand
      have hse : s = rdivEven W (10 ^ ((natToDecimal W).length - k)) :=
        (((Prod.mk.injEq _ _ _ _).mp hcand).1).symm
      have hnE : nE = ((natToDecimal W).length : Int) :=
        (((Prod.mk.injEq _ _ _ _).mp hcand).2).symm
      rw [hnE] at htrip ⊢
      have hs1 : 1 ≤ s := by omega
      rw [roundDec_shift (by omega) hs1] at htrip
      rw [show ((((natToDecimal W).length : Int)) - (k : Int)).toNat =
        (natToDecimal W).length - k from by omega] at htrip
      have hUle : s * 10 ^ ((natToDecimal W).length - k) ≤ 10 ^ (natToDecimal W).length := by
        have hsK : s ≤ 10 ^ k := by omega
        calc s * 10 ^ ((natToDecimal W).length - k) ≤
            10 ^ k * 10 ^ ((natToDecimal W).length - k) :=
              Nat.mul_le_mul hsK (le_refl _)
          _ = 10 ^ (natToDecimal W).length := by
              rw [← pow_add]
              congr 1
              omega
      have hUW : s * 10 ^ ((natToDecimal W).length - k) = W := by
        apply roundDec_int_inj (Nat.one_le_iff_ne_zero.mpr (by positivity)) ?_
          (by omega) hW ?_ htrip
        · have hstep : (10 : Nat) ^ (natToDecimal W).length ≤ 10 ^ 16 :=
            Nat.pow_le_pow_right (by omega) hD16
          have h54 : (10 : Nat) ^ 16 < 2 ^ 54 := by norm_num
          omega
        · have hdvd : (10 : Nat) ∣ s * 10 ^ ((natToDecimal W).length - k) :=
            Dvd.dvd.mul_left (dvd_pow_self 10 (by omega)) s
          omega
      -- format: digits of s followed by DW - k zeros = digits of W
      unfold formatDigits
      rw [if_pos ⟨by omega, by omega⟩]
      rw [show ((((natToDecimal W).length : Int)) - (k : Int)).toNat =
        (natToDecimal W).length - k from by omega]
      rw [show List.replicate ((natToDecimal W).length - k) '0' =
        List.replicate ((natToDecimal W).length - k) '0' from rfl]
      rw [← natToDecimal_mul_pow10 hs1]
      rw [hUW]
  -- main walk over the fuel
  intro fuel
  induction fuel with
  | zero =>
    intro k hk1 hkD hDk
    have hke : k = (natToDecimal W).length := by omega
    subst hke
    rw [show tryDigits (W * Q) Q ((natToDecimal W).length : Int) (dblNat W) 0
        (natToDecimal W).length =
        ((digitsCand (W * Q) Q ((natToDecimal W).length : Int) (natToDecimal W).length).1,
          (digitsCand (W * Q) Q ((natToDecimal W).length : Int) (natToDecimal W).length).2,
          (natToDecimal W).length) from rfl]
    rw [hcandD]
    exact hfmtD
  | succ f ih =>
    intro k hk1 hkD hDk
    have heq : tryDigits (W * Q) Q ((natToDecimal W).length : Int) (dblNat W) (f + 1) k =
        (if roundDec ⟨((digitsCand (W * Q) Q ((natToDecimal W).length : Int) k).1 : Int),
            (digitsCand (W * Q) Q ((natToDecimal W).length : Int) k).2 - (k : Int)⟩ ==
            dblNat W then
          ((digitsCand (W * Q) Q ((natToDecimal W).length : Int) k).1,
            (digitsCand (W * Q) Q ((natToDecimal W).length : Int) k).2, k)
        else tryDigits (W * Q) Q ((natToDecimal W).length : Int) (dblNat W) f (k + 1)) :=
      rfl
    rw [heq]
    by_cases hk : k = (natToDecimal W).length
    · subst hk
      rw [hcandD]
      rw [if_pos (by rw [beq_iff_eq]; exact htripD)]
      exact hfmtD
    · have hklt : k < (natToDecimal W).length := by omega
      by_cases htr : roundDec ⟨((digitsCand (W * Q) Q ((natToDecimal W).length : Int) k).1 : Int),
          (digitsCand (W * Q) Q ((natToDecimal W).length : Int) k).2 - (k : Int)⟩ = dblNat W
      · rw [if_pos (by rw [beq_iff_eq]; exact htr)]
        exact hshort k hk1 hklt _ _ rfl htr
      · rw [if_neg (by rw [beq_iff_eq]; exact htr)]
        exact ih (k + 1) (by omega) (by omega) (by omega)

theorem cPair_frac {W : Nat} (hW1 : 1 ≤ W) (hW : W ≤ 2 ^ 53) :
    ∃ Q, 0 < Q ∧
      (if 0 ≤ (cPair W).2 then (cPair W).1 * 2 ^ ((cPair W).2).toNat
        else (cPair W).1) = W * Q ∧
      (if 0 ≤ (cPair W).2 then 1 else 2 ^ (-(cPair W).2).toNat) = Q := by
  by_cases h53 : W = 2 ^ 53
  · refine ⟨1, one_pos, ?_, ?_⟩
    · subst h53
      rw [cPair, if_pos rfl]
      norm_num
    · subst h53
      rw [cPair, if_pos rfl]
      norm_num
  · have hL := natLog2_le_52 hW1 (by omega)
    have hcp : cPair W = (W * 2 ^ (52 - natLog2 W), (natLog2 W : Int) - 52) := by
      rw [cPair, if_neg h53]
    by_cases h52 : natLog2 W = 52
    · refine ⟨1, one_pos, ?_, ?_⟩
      · rw [hcp, h52]
        rw [if_pos (by omega : (0 : Int) ≤ ((52 : Nat) : Int) - 52)]
        show W * 2 ^ (52 - 52) * 2 ^ ((((52 : Nat) : Int) - 52).toNat) = W * 1
        rw [show (52 : Nat) - 52 = 0 from by omega]
        rw [show ((((52 : Nat) : Int) - 52)).toNat = 0 from by omega]
        norm_num
      · rw [hcp, h52]
        rw [if_pos (by omega : (0 : Int) ≤ ((52 : Nat) : Int) - 52)]
    · refine ⟨2 ^ (52 - natLog2 W), by positivity, ?_, ?_⟩
      · rw [hcp]
        rw [if_neg (by omega : ¬ (0 : Int) ≤ (natLog2 W : Int) - 52)]
      · rw [hcp]
        rw [if_neg (by omega : ¬ (0 : Int) ≤ (natLog2 W : Int) - 52)]
        show 2 ^ ((-((natLog2 W : Int) - 52)).toNat) = 2 ^ (52 - natLog2 W)
        congr 1
        omega

theorem renderPosD_int {W : Nat} (hW1 : 1 ≤ W) (hW : W ≤ 2 ^ 53) :
    renderPosD (cPair W).1 (cPair W).2 = natToDecimal W := by
  obtain ⟨Q, hQ, hP, hQe⟩ := cPair_frac hW1 hW
  obtain ⟨hL1, _, _⟩ := natToDecimal_length hW1
  simp only [renderPosD]
  rw [hP, hQe]
  rw [decExp_int hQ hW1 (by
    calc W ≤ 2 ^ 53 := hW
      _ < 10 ^ 17 := by norm_num)]
  rw [show (JSNumber.val false (cPair W).1 (cPair W).2) = dblNat W from by
    unfold dblNat
    rw [if_neg (by omega)]]
  have hD16 : (natToDecimal W).length ≤ 16 := by
    have h16 : W < 10 ^ 16 := by
      calc W ≤ 2 ^ 53 := hW
        _ < 10 ^ 16 := by norm_num
    obtain ⟨_, hlo, _⟩ := natToDecimal_length hW1
    by_contra hc
    push_neg at hc
    have hp : (10 : Nat) ^ 16 ≤ 10 ^ ((natToDecimal W).length - 1) :=
      Nat.pow_le_pow_right (by omega) (by omega)
    omega
  exact tryDigits_int hQ hW1 hW 16 1 (le_refl 1) hL1 (by omega)

theorem renderJSNumber_dblNat {W : Nat} (hW : W ≤ 2 ^ 53) :
    renderJSNumber (dblNat W) = natToDecimal W := by
  by_cases h0 : W = 0
  · subst h0
    rfl
  · have h1 : 1 ≤ W := by omega
    have hd : dblNat W = .val false (cPair W).1 (cPair W).2 := by
      unfold dblNat
      rw [if_neg h0]
    rw [hd]
    show (if (cPair W).1 = 0 then ['0']
      else if false then '-' :: renderPosD (cPair W).1 (cPair W).2
      else renderPosD (cPair W).1 (cPair W).2) = natToDecimal W
    rw [if_neg (by have := cPair_fst_pos h1; omega)]
    rw [if_neg Bool.false_ne_true]
    exact renderPosD_int h1 hW

/-! ## Claim theorems: version arithmetic (C2, C3) -/

set_option maxRecDepth 20000 in
/-- C3 counterexample: the claimed bump equations fail at and beyond
`2 ^ 53`, where binary64 arithmetic rounds.  `2 ^ 53 = 9007199254740992`
is exactly representable but `2 ^ 53 + 1` rounds back to `2 ^ 53`
(ties to even), so the major bump returns the version unchanged;
`9007199254740993` already rounds to `2 ^ 53` while parsing; and an
integral component `10 ^ 21` renders in exponent notation `1e+21`, not
in plain digits. -/
theorem c3_counterexample :
    bumpVersion (verString 9007199254740992 0 0) "major" =
        .ok (verString 9007199254740992 0 0) ∧
      verString 9007199254740992 0 0 ≠ verString (9007199254740992 + 1) 0 0 ∧
      bumpVersion (verString 9007199254740993 0 0) "patch" =
        .ok (verString 9007199254740992 0 1) ∧
      bumpVersion (verString 1000000000000000000000 0 0) "patch" =
        .ok "1e+21.0.1" ∧
      ("1e+21.0.1" : String) ≠ verString 1000000000000000000000 0 1 := by
  have h0 : jsNumberL ['0'] = .val false 0 0 := by decide
  have hadd0 : jsAdd (.val false 0 0) jsOne = .val false (2 ^ 52) (-52) := by decide
  have hren0 : renderJSNumber (.val false 0 0) = ['0'] := by decide
  have hren1 : renderJSNumber (.val false (2 ^ 52) (-52)) = ['1'] := by decide
  have hren52 : renderJSNumber (.val false (2 ^ 52) 1) = "9007199254740992".toList := by
    decide
  refine ⟨?_, by decide, ?_, ?_, by decide⟩
  · -- 2^53 bumps to itself: 2^53 + 1 rounds back to 2^53
    have hsplit : splitOnChar '.' (verString 9007199254740992 0 0).toList =
        ["9007199254740992".toList, ['0'], ['0']] := by decide
    have hM : jsNumberL "9007199254740992".toList = .val false (2 ^ 52) 1 := by decide
    have hadd : jsAdd (.val false (2 ^ 52) 1) jsOne = .val false (2 ^ 52) 1 := by decide
    unfold bumpVersion
    rw [hsplit, List.map_cons, List.map_cons, List.map_cons, List.map_nil, hM, h0]
    rw [if_neg (by decide)]
    simp only [List.getD_cons_zero, List.getD_cons_succ, reduceIte]
    rw [hadd, hren52]
    decide
  · -- 9007199254740993 already rounds to 2^53 while parsing
    have hsplit : splitOnChar '.' (verString 9007199254740993 0 0).toList =
        ["9007199254740993".toList, ['0'], ['0']] := by decide
    have hM : jsNumberL "9007199254740993".toList = .val false (2 ^ 52) 1 := by decide
    unfold bumpVersion
    rw [hsplit, List.map_cons, List.map_cons, List.map_cons, List.map_nil, hM, h0]
    rw [if_neg (by decide)]
    simp only [List.getD_cons_zero, List.getD_cons_succ, reduceIte]
    rw [hadd0, hren52, hren0, hren1]
    decide
  · -- an integral component 10^21 renders in exponent notation
    have hsplit : splitOnChar '.' (verString 1000000000000000000000 0 0).toList =
        ["1000000000000000000000".toList, ['0'], ['0']] := by decide
    have hM : jsNumberL "1000000000000000000000".toList =
        .val false 7629394531250000 17 := by decide
    have hrenM : renderJSNumber (.val false 7629394531250000 17) = "1e+21".toList := by
      decide
    unfold bumpVersion
    rw [hsplit, List.map_cons, List.map_cons, List.map_cons, List.map_nil, hM, h0]
    rw [if_neg (by decide)]
    simp only [List.getD_cons_zero, List.getD_cons_succ, reduceIte]
    rw [hadd0, hrenM, hren0, hren1]
    decide

/-- C3 (amended): for every version string of exactly three non-negative
integer components `M.N.P` (in canonical decimal) **below `2 ^ 53`**,
`bumpVersion` returns `(M+1).0.0` for kind `"major"`, `M.(N+1).0` for
kind `"minor"`, and `M.N.(P+1)` for every other kind string, including
`"patch"` and unrecognised strings such as `"glorb"`; zero components
are valid input.  Below `2 ^ 53` every component and every bumped
component is exactly representable in binary64 and prints in plain
decimal; at `2 ^ 53` and beyond the equations fail
(`c3_counterexample`). -/
theorem c3_bumpVersion_components (M N P : Nat) (bump : String)
    (hM : M < 2 ^ 53) (hN : N < 2 ^ 53) (hP : P < 2 ^ 53) :
    bumpVersion (verString M N P) bump =
      .ok (if bump = "major" then verString (M + 1) 0 0
        else if bump = "minor" then verString M (N + 1) 0
        else verString M N (P + 1)) := by
  have hMd := natToDecimal_spec M
  have hNd := natToDecimal_spec N
  have hPd := natToDecimal_spec P
  have hparts : (splitOnChar '.' (verString M N P).toList).map jsNumberL =
      [dblNat M, dblNat N, dblNat P] := by
    rw [splitOnChar_verString]
    rw [List.map_cons, List.map_cons, List.map_cons, List.map_nil]
    rw [jsNumberL_digits hMd.1 hMd.2.1, hMd.2.2, roundDec_int (by omega)]
    rw [jsNumberL_digits hNd.1 hNd.2.1, hNd.2.2, roundDec_int (by omega)]
    rw [jsNumberL_digits hPd.1 hPd.2.1, hPd.2.2, roundDec_int (by omega)]
  unfold bumpVersion
  rw [hparts]
  rw [if_neg (by simp [jsIsNaN_dblNat])]
  simp only [List.getD_cons_zero, List.getD_cons_succ]
  by_cases h1 : bump = "major"
  · rw [if_pos h1, if_pos h1, jsAdd_dblNat_one hM,
      renderJSNumber_dblNat (by omega), assemble1]
    rfl
  · by_cases h2 : bump = "minor"
    · rw [if_neg h1, if_pos h2, if_neg h1, if_pos h2, jsAdd_dblNat_one hN,
        renderJSNumber_dblNat (by omega : M ≤ 2 ^ 53),
        renderJSNumber_dblNat (by omega : N + 1 ≤ 2 ^ 53), assemble2]
      rfl
    · rw [if_neg h1, if_neg h2, if_neg h1, if_neg h2, jsAdd_dblNat_one hP,
        renderJSNumber_dblNat (by omega : M ≤ 2 ^ 53),
        renderJSNumber_dblNat (by omega : N ≤ 2 ^ 53),
        renderJSNumber_dblNat (by omega : P + 1 ≤ 2 ^ 53), assemble3]
      rfl

/-- C3 witness: the amended theorem applied at a concrete in-range
input. -/
theorem c3_witness :
    (1 : Nat) < 2 ^ 53 ∧ (2 : Nat) < 2 ^ 53 ∧ (3 : Nat) < 2 ^ 53 ∧
      bumpVersion (verString 1 2 3) "minor" = .ok (verString 1 3 0) :=
  ⟨by decide, by decide, by decide,
    (c3_bumpVersion_components 1 2 3 "minor" (by decide) (by decide) (by decide)).trans
      (by decide)⟩

/-- C2 counterexample: `"1..3"` dot-splits into three components of which
the middle one, `""`, is not a non-negative integer (it is empty), yet
`bumpVersion` does not throw — JS `Number("")` is `0`, so the patch bump
returns `"1.0.4"`.  Likewise a negative component does not throw:
`bumpVersion "1.-2.3" "patch"` returns `"1.-2.4"`. -/
theorem c2_counterexample :
    ((splitOnChar '.' "1..3".toList).any fun c => !isNonNegIntComp c) = true ∧
      bumpVersion "1..3" "patch" = .ok "1.0.4" ∧
      bumpVersion "1.-2.3" "patch" = .ok "1.-2.4" :=
  ⟨by decide, by decide, by decide⟩

/-- C2 (amended): `bumpVersion current kind` throws `Invalid semver`
exactly when the dot-split of `current` has a component count other than
three or some component is not numeric under JS `Number` string
conversion (i.e. converts to `NaN`).  Every component that is a nonempty
string of decimal digits is numeric, so inputs of exactly three
non-negative integer components never throw; but the claim's converse
direction fails, because empty components (`Number("") = 0`) and
negative or otherwise numeric components do not throw either. -/
theorem c2_bumpVersion_error_iff (current bump : String) :
    (isErr (bumpVersion current bump) = true ↔
      (splitOnChar '.' current.toList).length ≠ 3 ∨
        ∃ c ∈ splitOnChar '.' current.toList, jsIsNaN (jsNumberL c) = true) ∧
    (∀ c ∈ splitOnChar '.' current.toList, isNonNegIntComp c = true →
      jsIsNaN (jsNumberL c) = false) := by
  have hchar : isErr (bumpVersion current bump) = true ↔
      (((splitOnChar '.' current.toList).map jsNumberL).length ≠ 3 ∨
        ((splitOnChar '.' current.toList).map jsNumberL).any jsIsNaN = true) := by
    simp only [bumpVersion]
    split_ifs with h <;>
      first
      | exact iff_of_true rfl h
      | exact iff_of_false (by simp [isErr]) h
  constructor
  · rw [hchar]
    constructor
    · intro h
      rcases h with h | h
      · left; simpa using h
      · right
        rcases List.any_eq_true.mp h with ⟨x, hx, hnan⟩
        rcases List.mem_map.mp hx with ⟨c, hc, rfl⟩
        exact ⟨c, hc, hnan⟩
    · intro h
      rcases h with h | ⟨c, hc, hnan⟩
      · left; simpa using h
      · right
        exact List.any_eq_true.mpr ⟨jsNumberL c, List.mem_map_of_mem _ hc, hnan⟩
  · intro c hc hcomp
    simp only [isNonNegIntComp, Bool.and_eq_true] at hcomp
    have hne : c ≠ [] := by
      intro e
      subst e
      simp at hcomp
    have hd : ∀ x ∈ c, isDigitC x = true := List.all_eq_true.mp hcomp.2
    rw [jsNumberL_digits hne hd]
    exact jsIsNaN_roundDec _

/-- C2 witness: at the concrete input `"1.2.3"`, the component `"2"` is a
non-negative integer component and indeed converts to a non-`NaN`
number. -/
theorem c2_witness :
    isNonNegIntComp "2".toList = true ∧ jsIsNaN (jsNumberL "2".toList) = false :=
  ⟨by decide,
    (c2_bumpVersion_error_iff "1.2.3" "patch").2 "2".toList (by decide) (by decide)⟩

/-! ## Claim theorem: the confirmation prompt (C9) -/

/-- C9: `confirm(promptText, inputSource)` writes exactly
`"<promptText> (y/N) "` to the output stream and returns true iff the
trimmed, case-insensitive input line is exactly `"y"`; in particular
`"y"` and `"Y"` yield true, and `""`, `"n"` and `"yes"` yield false. -/
theorem c9_confirm_spec (p input : String) :
    (confirm p input).output = p ++ " (y/N) " ∧
      ((confirm p input).result = true ↔ jsToLower (jsTrim input) = "y") ∧
      (confirm p "y").result = true ∧ (confirm p "Y").result = true ∧
      (confirm p "").result = false ∧ (confirm p "n").result = false ∧
      (confirm p "yes").result = false := by
  refine ⟨rfl, ?_, rfl, rfl, rfl, rfl, rfl⟩
  simp [confirm]

/-! ## Lemmas about substring search -/

theorem hasPre_iff {p xs : List Char} : hasPre p xs = true ↔ ∃ t, xs = p ++ t := by
  unfold hasPre
  rw [beq_iff_eq]
  constructor
  · intro h
    refine ⟨xs.drop p.length, ?_⟩
    conv_lhs => rw [← List.take_append_drop p.length xs]
    rw [h]
  · rintro ⟨t, rfl⟩
    exact List.take_left p t

theorem firstIdx_spec {pat : List Char} :
    ∀ {xs : List Char} {i : Nat}, firstIdx pat xs = some i →
      hasPre pat (xs.drop i) = true ∧ ∀ j < i, hasPre pat (xs.drop j) = false := by
  intro xs
  induction xs with
  | nil =>
    intro i h
    by_cases hp : hasPre pat [] = true
    · rw [show firstIdx pat [] = some 0 by unfold firstIdx; rw [if_pos hp]] at h
      injection h with h1
      subst h1
      exact ⟨by simpa using hp, fun j hj => absurd hj (by omega)⟩
    · rw [show firstIdx pat [] = none by unfold firstIdx; rw [if_neg hp]] at h
      cases h
  | cons c rest ih =>
    intro i h
    by_cases hp : hasPre pat (c :: rest) = true
    · rw [show firstIdx pat (c :: rest) = some 0 by
        unfold firstIdx; rw [if_pos hp]] at h
      injection h with h1
      subst h1
      exact ⟨by simpa using hp, fun j hj => absurd hj (by omega)⟩
    · rw [show firstIdx pat (c :: rest) = (firstIdx pat rest).map (· + 1) by
        conv_lhs => rw [firstIdx]
        rw [if_neg hp]] at h
      cases hfi : firstIdx pat rest with
      | none => rw [hfi] at h; cases h
      | some k =>
        rw [hfi] at h
        simp only [Option.map_some'] at h
        injection h with h1
        subst h1
        obtain ⟨ha, hb⟩ := ih hfi
        refine ⟨by simpa using ha, ?_⟩
        intro j hj
        cases j with
        | zero => simpa using hp
        | succ j' =>
          have hj' := hb j' (by omega)
          simpa using hj'

theorem firstIdx_intro {pat : List Char} :
    ∀ {xs : List Char} {i : Nat}, hasPre pat (xs.drop i) = true →
      (∀ j < i, hasPre pat (xs.drop j) = false) → firstIdx pat xs = some i := by
  intro xs
  induction xs with
  | nil =>
    intro i h1 h2
    cases i with
    | zero =>
      unfold firstIdx
      rw [if_pos (by simpa using h1)]
    | succ i' =>
      have h0 := h2 0 (by omega)
      simp at h0 h1
      rw [h1] at h0
      cases h0
  | cons c rest ih =>
    intro i h1 h2
    cases i with
    | zero =>
      unfold firstIdx
      rw [if_pos (by simpa using h1)]
    | succ i' =>
      have h0 : hasPre pat (c :: rest) = false := by simpa using h2 0 (by omega)
      unfold firstIdx
      rw [if_neg (by simp [h0])]
      rw [ih (by simpa using h1) (fun j hj => by simpa using h2 (j + 1) (by omega))]
      rfl

theorem hasPre_nlHH_iff {xs : List Char} :
    hasPre nlHH xs = true ↔
      xs[0]? = some '\n' ∧ xs[1]? = some '#' ∧ xs[2]? = some '#' ∧
        xs[3]? = some ' ' := by
  rw [show nlHH = ['\n', '#', '#', ' '] from rfl, hasPre_iff]
  constructor
  · rintro ⟨t, rfl⟩
    refine ⟨?_, ?_, ?_, ?_⟩ <;> simp
  · intro h
    rcases xs with _ | ⟨a, _ | ⟨b, _ | ⟨c, _ | ⟨d, t⟩⟩⟩⟩
    · simp at h
    · simp at h
    · simp at h
    · simp at h
    · obtain ⟨h0, h1, h2, h3⟩ := h
      simp at h0 h1 h2 h3
      subst h0; subst h1; subst h2; subst h3
      exact ⟨t, rfl⟩

/-! ## Claim theorems: changelog insertion (C4, C5) -/

/-- C4 counterexample: inserting the repository's own test entry into its
test document yields the new entry's last line immediately followed by
the old `"## "` heading — a single newline, not a blank line — and two
blank lines before the new heading, refuting "separated from the
surrounding content by a blank line on each side". -/
theorem c4_counterexample :
    hasSub "- new entry\n## [1.0.0]".toList
        (insertChangelog (some demoChangelogA) demoEntryB) = true ∧
      hasSub "- new entry\n\n".toList
        (insertChangelog (some demoChangelogA) demoEntryB) = false ∧
      hasSub "# Changelog\n\n\n## [1.1.0]".toList
        (insertChangelog (some demoChangelogA) demoEntryB) = true :=
  ⟨by decide, by decide, by decide⟩

/-- C4 (amended): when the existing changelog contains the pattern
`"\n## "`, first occurring at index `i`, `insertChangelog` splices the
new entry in place of that newline: the result is
`existing.slice(0, i) + "\n\n" + entry + existing.slice(i + 1)` — all
bytes before and after preserved verbatim, the preserved suffix starting
with the first pre-existing `"## "` heading, and a blank line inserted
*before* the entry (the suffix follows the entry immediately; any blank
line after it must come from the entry's own trailing newlines).  With
the entry itself a `"## "` section, the first `"\n## "` of the result is
at index `i + 1` — the spliced entry's own heading — so the new heading
sits strictly before every pre-existing one. -/
theorem c4_insertChangelog_splice (ex entry : List Char) (i : Nat)
    (hfind : firstIdx nlHH ex = some i)
    (hentry : hasPre ['#', '#', ' '] entry = true) :
    insertChangelog (some ex) entry =
        ex.take i ++ '\n' :: '\n' :: (entry ++ ex.drop (i + 1)) ∧
      hasPre nlHH (ex.drop i) = true ∧
      firstIdx nlHH (insertChangelog (some ex) entry) = some (i + 1) := by
  obtain ⟨hat, hmin⟩ := firstIdx_spec hfind
  have heq : insertChangelog (some ex) entry =
      ex.take i ++ '\n' :: '\n' :: (entry ++ ex.drop (i + 1)) := by
    simp [insertChangelog, hfind]
  obtain ⟨tl, htl⟩ := hasPre_iff.mp hat
  obtain ⟨te, hte⟩ := hasPre_iff.mp hentry
  have hilen : i + 4 ≤ ex.length := by
    have h1 : (ex.drop i).length = ex.length - i := List.length_drop i ex
    rw [htl] at h1
    simp [nlHH] at h1
    omega
  have hA : (ex.take i).length = i := by
    rw [List.length_take]
    omega
  refine ⟨heq, hat, ?_⟩
  rw [heq]
  set A := ex.take i with hAdef
  set D := ex.drop (i + 1) with hDdef
  have hr0 : ∀ m, m < i → (A ++ '\n' :: '\n' :: (entry ++ D))[m]? = ex[m]? := by
    intro m hm
    rw [List.getElem?_append_left (by rw [hA]; omega)]
    rw [hAdef, List.getElem?_take_of_lt hm]
  have hri : (A ++ '\n' :: '\n' :: (entry ++ D))[i]? = some '\n' := by
    rw [List.getElem?_append_right (by rw [hA]), hA]
    simp
  have hri1 : (A ++ '\n' :: '\n' :: (entry ++ D))[i + 1]? = some '\n' := by
    rw [List.getElem?_append_right (by rw [hA]; omega), hA]
    simp
  apply firstIdx_intro
  · have hdrop : (A ++ '\n' :: '\n' :: (entry ++ D)).drop (i + 1) =
        '\n' :: (entry ++ D) := by
      rw [show A ++ '\n' :: '\n' :: (entry ++ D) =
          (A ++ ['\n']) ++ ('\n' :: (entry ++ D)) by simp]
      exact List.drop_left' (by simp [hA])
    rw [hdrop, hte]
    simp [hasPre, nlHH]
  · intro j hj
    by_contra hcon
    rw [Bool.not_eq_false, hasPre_nlHH_iff] at hcon
    obtain ⟨k0, k1, k2, k3⟩ := hcon
    rw [List.getElem?_drop] at k0 k1 k2 k3
    by_cases hc : j + 4 ≤ i
    · have e0 : ex[j + 0]? = some '\n' := by rw [← hr0 (j + 0) (by omega)]; exact k0
      have e1 : ex[j + 1]? = some '#' := by rw [← hr0 (j + 1) (by omega)]; exact k1
      have e2 : ex[j + 2]? = some '#' := by rw [← hr0 (j + 2) (by omega)]; exact k2
      have e3 : ex[j + 3]? = some ' ' := by rw [← hr0 (j + 3) (by omega)]; exact k3
      have hpre : hasPre nlHH (ex.drop j) = true := by
        rw [hasPre_nlHH_iff]
        refine ⟨?_, ?_, ?_, ?_⟩ <;> rw [List.getElem?_drop] <;> assumption
      rw [hmin j (by omega)] at hpre
      cases hpre
    · have hd4 : j = i ∨ j + 1 = i ∨ j + 2 = i ∨ j + 3 = i := by omega
      rcases hd4 with h | h | h | h
      · subst h
        rw [hri1] at k1
        simp at k1
      · rw [h] at k1
        rw [hri] at k1
        simp at k1
      · rw [h] at k2
        rw [hri] at k2
        simp at k2
      · rw [h] at k3
        rw [hri] at k3
        simp at k3

/-- C4 witness: the amended theorem applied to the repository's own test
document and entry; `"\n## "` first occurs at index 12. -/
theorem c4_witness :
    firstIdx nlHH demoChangelogA = some 12 ∧
      hasPre ['#', '#', ' '] demoEntryB = true ∧
      (insertChangelog (some demoChangelogA) demoEntryB =
          demoChangelogA.take 12 ++ '\n' :: '\n' ::
            (demoEntryB ++ demoChangelogA.drop 13) ∧
        hasPre nlHH (demoChangelogA.drop 12) = true ∧
        firstIdx nlHH (insertChangelog (some demoChangelogA) demoEntryB) =
          some 13) :=
  ⟨by decide, by decide,
    c4_insertChangelog_splice demoChangelogA demoEntryB 12 (by decide) (by decide)⟩

/-- C5 counterexample: on an existing but *empty* changelog file the
result is `"\n\n" + entry`, which does not start with `"# Changelog"`. -/
theorem c5_counterexample :
    insertChangelog (some []) "## [1.0.0] - 2025-01-01\n\n- initial release\n".toList =
        '\n' :: '\n' :: "## [1.0.0] - 2025-01-01\n\n- initial release\n".toList ∧
      hasPre "# Changelog".toList
        (insertChangelog (some [])
          "## [1.0.0] - 2025-01-01\n\n- initial release\n".toList) = false :=
  ⟨by decide, by decide⟩

/-- C5 (amended): when the changelog file does not exist, the written
content is exactly `"# Changelog\n\n" + entry`; but on an existing empty
file the content is `"\n\n" + entry` — the title line is created only
for a missing file, not for an empty one. -/
theorem c5_insertChangelog_new (entry : List Char) :
    insertChangelog none entry = "# Changelog\n\n".toList ++ entry ∧
      insertChangelog (some []) entry = '\n' :: '\n' :: entry :=
  ⟨rfl, rfl⟩

/-! ## Characterisations of the repository operations -/

theorem gitPullFFOnly_cases {b : String} {s s' : RepoState}
    (h : gitPullFFOnly b s = some s') :
    (subHist (tipB b s).hist (remoteB b s).hist = true ∧
        s' = { setTip b (remoteB b s) (logCmd ("git pull --ff-only origin " ++ b) s) with
               wt := (remoteB b s).snap, dirty := false }) ∨
      (subHist (tipB b s).hist (remoteB b s).hist = false ∧
        subHist (remoteB b s).hist (tipB b s).hist = true ∧
        s' = logCmd ("git pull --ff-only origin " ++ b) s) := by
  simp only [gitPullFFOnly] at h
  split_ifs at h with h1 h2
  · exact Or.inl ⟨h1, by injection h with h; exact h.symm⟩
  · exact Or.inr ⟨by simpa using h1, h2, by injection h with h; exact h.symm⟩

theorem gitMergeFFOnly_cases {other : String} {s s' : RepoState}
    (h : gitMergeFFOnly other s = some s') :
    (subHist (tipB s.current s).hist (tipB other s).hist = true ∧
        s' = { setTip s.current (tipB other s)
                 (logCmd ("git merge --ff-only " ++ other) s) with
               wt := (tipB other s).snap, dirty := false }) ∨
      (subHist (tipB s.current s).hist (tipB other s).hist = false ∧
        subHist (tipB other s).hist (tipB s.current s).hist = true ∧
        s' = logCmd ("git merge --ff-only " ++ other) s) := by
  simp only [gitMergeFFOnly] at h
  split_ifs at h with h1 h2
  · exact Or.inl ⟨h1, by injection h with h; exact h.symm⟩
  · exact Or.inr ⟨by simpa using h1, h2, by injection h with h; exact h.symm⟩

theorem gitPush_some {b : String} {s s' : RepoState}
    (h : gitPush b s = some s') :
    subHist (remoteB b s).hist (tipB b s).hist = true ∧
      s' = setRemote b (tipB b s) (logCmd ("git push origin " ++ b) s) := by
  simp only [gitPush] at h
  split_ifs at h with h1
  exact ⟨h1, by injection h with h; exact h.symm⟩

theorem gitCommitAll_some {subject : String} {s s' : RepoState}
    (h : gitCommitAll subject s = some s') :
    s.dirty = true ∧
      s' = { setTip s.current ⟨(s.ctr, subject) :: (tipB s.current s).hist, s.wt⟩
               (logCmd ("git commit " ++ subject) s) with
             dirty := false, ctr := s.ctr + 1 } := by
  simp only [gitCommitAll] at h
  split_ifs at h with h1
  exact ⟨by simpa using h1, by injection h with h; exact h.symm⟩

theorem subHist_refl (a : List (Nat × String)) : subHist a a = true := by
  unfold subHist
  rw [List.all_eq_true]
  intro p hp
  rw [List.any_eq_true]
  exact ⟨p, hp, by simp⟩

theorem subHist_head_mem {n : Nat} {subj : String} {h1 h2 : List (Nat × String)}
    (hs : subHist ((n, subj) :: h1) h2 = true) : ∃ q ∈ h2, q.1 = n := by
  unfold subHist at hs
  rw [List.all_eq_true] at hs
  have := hs (n, subj) (List.mem_cons_self _ _)
  rw [List.any_eq_true] at this
  obtain ⟨q, hq, hbeq⟩ := this
  exact ⟨q, hq, by simpa using hbeq⟩

/-! ## Claim theorems: argument guards of `flow-hotfix finish` (C8) -/

/-- C8: every `flow-hotfix finish` invocation whose bump-kind argument is
not exactly `"patch"` or `"minor"` (including `"major"`, unrecognised
strings and a missing argument), or whose message argument is missing or
empty, terminates in one of the two usage outcomes with exit code 1 and
the start state carried unchanged — so no repository operation or file
modification has been performed (in particular the command trace is
untouched). -/
theorem c8_hotfixFinish_arg_guards (subArgs : List String) (inp : HfInput)
    (s0 : RepoState)
    (h : ¬((subArgs.head?).getD "" = "patch" ∨ (subArgs.head?).getD "" = "minor") ∨
      String.intercalate " " (subArgs.drop 1) = "") :
    (hotfixFinish subArgs inp s0 = .usageBadKind s0 ∨
        hotfixFinish subArgs inp s0 = .usageNoMsg s0) ∧
      (hotfixFinish subArgs inp s0).exitCode = 1 := by
  by_cases hk : (subArgs.head?).getD "" = "patch" ∨ (subArgs.head?).getD "" = "minor"
  · have hmsg : String.intercalate " " (subArgs.drop 1) = "" := by
      rcases h with h | h
      · exact absurd hk h
      · exact h
    have hres : hotfixFinish subArgs inp s0 = .usageNoMsg s0 := by
      simp only [hotfixFinish]
      rw [if_neg (not_not_intro hk), if_pos hmsg]
    rw [hres]
    exact ⟨Or.inr rfl, rfl⟩
  · have hres : hotfixFinish subArgs inp s0 = .usageBadKind s0 := by
      simp only [hotfixFinish]
      rw [if_pos hk]
    rw [hres]
    exact ⟨Or.inl rfl, rfl⟩

/-- C8 witness: `flow-hotfix finish major oops` trips the bump-kind guard
on the demonstration repository. -/
theorem c8_witness :
    (hotfixFinish ["major", "oops"] demoHf demoS0 = .usageBadKind demoS0 ∨
        hotfixFinish ["major", "oops"] demoHf demoS0 = .usageNoMsg demoS0) ∧
      (hotfixFinish ["major", "oops"] demoHf demoS0).exitCode = 1 :=
  c8_hotfixFinish_arg_guards ["major", "oops"] demoHf demoS0 (by decide)

/-! ## Claim theorems: the `flow-release` package guard (C10) -/

theorem gitPullFFOnly_main_frame {s s' : RepoState}
    (h : gitPullFFOnly "main" s = some s') :
    s'.staging = s.staging ∧ s'.ostaging = s.ostaging ∧
      s'.production = s.production ∧ s'.oproduction = s.oproduction ∧
      s'.ctr = s.ctr ∧ s'.current = s.current ∧
      s'.trace = s.trace ++ ["git pull --ff-only origin main"] := by
  rcases gitPullFFOnly_cases h with ⟨_, rfl⟩ | ⟨_, _, rfl⟩
  · exact ⟨rfl, rfl, rfl, rfl, rfl, rfl, rfl⟩
  · exact ⟨rfl, rfl, rfl, rfl, rfl, rfl, rfl⟩

/-- C10: after syncing `main` (fetch and fast-forward pull), `flow-release`
exits with code 1 whenever `package.json` is absent from the working
directory or its `name` field is missing or empty — without running the
quality gate, committing, or touching `staging`: the run terminates in the
`noPkg`/`noName` outcome whose state is exactly the post-pull state, whose
`staging` refs and commit counter equal the initial ones and whose trace
extends the initial one by just the fetch and pull commands. -/
theorem c10_releaseFlow_pkg_guard (inp : RelInput) (s0 s1 : RepoState)
    (hcur : s0.current = "main") (hdirty : s0.dirty = false)
    (hpull : gitPullFFOnly "main" (gitFetch s0) = some s1)
    (hguard : s1.wt.pkg = none ∨ ∃ pk, s1.wt.pkg = some pk ∧ pk.name = "") :
    (releaseFlow inp s0 = .noPkg s1 ∨ releaseFlow inp s0 = .noName s1) ∧
      (releaseFlow inp s0).exitCode = 1 ∧
      s1.staging = s0.staging ∧ s1.ostaging = s0.ostaging ∧ s1.ctr = s0.ctr ∧
      s1.trace = s0.trace ++ ["git fetch origin", "git pull --ff-only origin main"] := by
  have hframe := gitPullFFOnly_main_frame hpull
  have hstep : releaseFlow inp s0 =
      (match s1.wt.pkg with
        | none => .noPkg s1
        | some pk => if pk.name = "" then .noName s1
            else if ¬ s1.hasStaging then .noStaging s1
            else
              let s3 := runQualityChecksOp s1
              if ¬ inp.qualityOk then .qualityFail s3
              else
                let s4 := gitAddAll (runFixOp s3)
                let s5 := if inp.fixDirties then { s4 with dirty := true } else s4
                let s6 :=
                  if s5.dirty then
                    (gitCommitAll ("chore(staging): " ++
                      (if String.intercalate " " inp.args = "" then "auto-fix formatting"
                       else String.intercalate " " inp.args)) s5).getD s5
                  else s5
                let s7 := gitCheckout "staging" s6
                match gitMergeFFOnly "main" s7 with
                | none => .crashed s7
                | some s8 =>
                  match gitPush "staging" s8 with
                  | none => .crashed s8
                  | some s9 =>
                    let s10 := gitCheckout "main" s9
                    match gitPush "main" s10 with
                    | none => .crashed s10
                    | some s11 => .success s11) := by
    simp only [releaseFlow]
    rw [if_neg (by simp [hcur]), if_neg (by simp [hdirty]), hpull]
  rcases hguard with hnone | ⟨pk, hpk, hname⟩
  · rw [hnone] at hstep
    refine ⟨Or.inl hstep, ?_, hframe.1, hframe.2.1, hframe.2.2.2.2.1, ?_⟩
    · rw [hstep]; rfl
    · rw [hframe.2.2.2.2.2.2]
      simp [gitFetch, logCmd]
  · rw [hpk] at hstep
    simp only [if_pos hname] at hstep
    refine ⟨Or.inr hstep, ?_, hframe.1, hframe.2.1, hframe.2.2.2.2.1, ?_⟩
    · rw [hstep]; rfl
    · rw [hframe.2.2.2.2.2.2]
      simp [gitFetch, logCmd]

/-- C10 witness: the demonstration repository with no `package.json`
trips the guard right after the sync. -/
theorem c10_witness :
    demoRelS0.current = "main" ∧ demoRelS0.dirty = false ∧
      gitPullFFOnly "main" (gitFetch demoRelS0) = some demoRelS1 ∧
      demoRelS1.wt.pkg = none ∧
      ((releaseFlow demoRel demoRelS0 = .noPkg demoRelS1 ∨
          releaseFlow demoRel demoRelS0 = .noName demoRelS1) ∧
        (releaseFlow demoRel demoRelS0).exitCode = 1 ∧
        demoRelS1.staging = demoRelS0.staging ∧
        demoRelS1.ostaging = demoRelS0.ostaging ∧
        demoRelS1.ctr = demoRelS0.ctr ∧
        demoRelS1.trace = demoRelS0.trace ++
          ["git fetch origin", "git pull --ff-only origin main"]) :=
  ⟨rfl, rfl, by decide, by decide,
    c10_releaseFlow_pkg_guard demoRel demoRelS0 demoRelS1 rfl rfl (by decide)
      (Or.inl (by decide))⟩

/-! ## Claim theorems: `flow-ship` declined and quality failure (C6, C7) -/

/-- C6: when all the guards up to the prompt pass and the operator
declines the confirmation (the trimmed, lowercased answer line is not
`"y"`), `flow-ship` exits with code 0 and the run ends in the `declined`
outcome whose state is the start state with only the fetch command traced:
the package manifest, the changelog, and the local and remote tips of
`main`, `staging` and `production` are all unchanged. -/
theorem c6_shipFlow_declined (inp : ShipInput) (s0 : RepoState) (pk : Pkg)
    (hbump : inp.bumpType = "patch" ∨ inp.bumpType = "minor" ∨ inp.bumpType = "major")
    (hcur : s0.current = "main") (hdirty : s0.dirty = false)
    (hst : s0.hasStaging = true) (hpr : s0.hasProduction = true)
    (hahead : subHist s0.ostaging.hist s0.oproduction.hist = false)
    (hpkg : s0.wt.pkg = some pk)
    (hdecl : jsToLower (jsTrim inp.confirmLine) ≠ "y") :
    shipFlow inp s0 = .declined (gitFetch s0) ∧
      (shipFlow inp s0).exitCode = 0 ∧
      (gitFetch s0).main = s0.main ∧ (gitFetch s0).staging = s0.staging ∧
      (gitFetch s0).production = s0.production ∧ (gitFetch s0).omain = s0.omain ∧
      (gitFetch s0).ostaging = s0.ostaging ∧
      (gitFetch s0).oproduction = s0.oproduction ∧ (gitFetch s0).wt = s0.wt := by
  obtain ⟨m, stg, prod, om, ost, opr, hs, hp, hb, cur, wt, dr, ctr, tr⟩ := s0
  obtain ⟨pkgf, chl⟩ := wt
  simp only at hcur hdirty hst hpr hahead hpkg
  subst hcur
  subst hdirty
  subst hst
  subst hpr
  subst hpkg
  have hres : shipFlow inp
      ⟨m, stg, prod, om, ost, opr, true, true, hb, "main", ⟨some pk, chl⟩, false, ctr, tr⟩ =
      .declined (gitFetch
        ⟨m, stg, prod, om, ost, opr, true, true, hb, "main", ⟨some pk, chl⟩, false, ctr, tr⟩) := by
    simp only [shipFlow, gitFetch, logCmd]
    rw [if_neg (not_not_intro hbump)]
    simp only [hahead]
    simp [confirm, hdecl]
  exact ⟨hres, by rw [hres]; rfl, rfl, rfl, rfl, rfl, rfl, rfl, rfl⟩

/-- C6 witness: the demonstration scenario with the operator answering
`"n"`. -/
theorem c6_witness :
    shipFlow { demoShip with confirmLine := "n" } demoS0 = .declined (gitFetch demoS0) ∧
      (shipFlow { demoShip with confirmLine := "n" } demoS0).exitCode = 0 ∧
      (gitFetch demoS0).main = demoS0.main ∧
      (gitFetch demoS0).staging = demoS0.staging ∧
      (gitFetch demoS0).production = demoS0.production ∧
      (gitFetch demoS0).omain = demoS0.omain ∧
      (gitFetch demoS0).ostaging = demoS0.ostaging ∧
      (gitFetch demoS0).oproduction = demoS0.oproduction ∧
      (gitFetch demoS0).wt = demoS0.wt :=
  c6_shipFlow_declined { demoShip with confirmLine := "n" } demoS0
    { name := "demo", version := "2.1.0" } (by decide) rfl rfl rfl rfl (by decide)
    (by decide) (by decide)

theorem promoteChain_not_qualityFail {s8 s' : RepoState} :
    promoteChain s8 ≠ .qualityFail s' := by
  intro h
  simp only [promoteChain] at h
  repeat' split at h
  all_goals simp at h

/-- C7: whenever a `flow-ship` run terminates through a quality-gate
failure, the terminal repository state has `main` checked out and the
process exit code is 1 — the flow checks `main` back out before aborting,
so it never exits on a quality-gate failure with the operator left on
`staging`. -/
theorem c7_shipFlow_quality_fail (inp : ShipInput) (s0 s' : RepoState)
    (h : shipFlow inp s0 = .qualityFail s') :
    s'.current = "main" ∧ (shipFlow inp s0).exitCode = 1 := by
  refine ⟨?_, by rw [h]; rfl⟩
  simp only [shipFlow] at h
  repeat' split at h
  all_goals
    first
    | exact absurd h promoteChain_not_qualityFail
    | (injection h with h1; rw [← h1]; rfl)
    | simp at h

/-! ## Tracking lemmas for the promote chain -/

theorem gitPush_frame {b : String} {s s' : RepoState} (h : gitPush b s = some s') :
    s'.main = s.main ∧ s'.staging = s.staging ∧ s'.production = s.production ∧
      s'.current = s.current ∧ s'.ctr = s.ctr := by
  obtain ⟨_, rfl⟩ := gitPush_some h
  unfold setRemote
  split_ifs <;> exact ⟨rfl, rfl, rfl, rfl, rfl⟩

theorem pullProd_facts {s s' : RepoState}
    (h : gitPullFFOnly "production" s = some s') :
    s'.main = s.main ∧ s'.staging = s.staging ∧
      (s'.production = s.production ∨ s'.production = s.oproduction) ∧
      s'.omain = s.omain ∧ s'.ostaging = s.ostaging ∧
      s'.oproduction = s.oproduction ∧ s'.current = s.current ∧ s'.ctr = s.ctr := by
  rcases gitPullFFOnly_cases h with ⟨_, rfl⟩ | ⟨_, _, rfl⟩
  · exact ⟨rfl, rfl, Or.inr rfl, rfl, rfl, rfl, rfl, rfl⟩
  · exact ⟨rfl, rfl, Or.inl rfl, rfl, rfl, rfl, rfl, rfl⟩

theorem pullMain_facts {s s' : RepoState}
    (h : gitPullFFOnly "main" s = some s') :
    (s'.main = s.main ∨ s'.main = s.omain) ∧ s'.staging = s.staging ∧
      s'.production = s.production ∧ s'.omain = s.omain ∧ s'.ostaging = s.ostaging ∧
      s'.oproduction = s.oproduction ∧ s'.current = s.current ∧ s'.ctr = s.ctr := by
  rcases gitPullFFOnly_cases h with ⟨_, rfl⟩ | ⟨_, _, rfl⟩
  · exact ⟨Or.inr rfl, rfl, rfl, rfl, rfl, rfl, rfl, rfl⟩
  · exact ⟨Or.inl rfl, rfl, rfl, rfl, rfl, rfl, rfl, rfl⟩

theorem pullStaging_facts {s s' : RepoState}
    (h : gitPullFFOnly "staging" s = some s') :
    s'.main = s.main ∧ s'.production = s.production ∧ s'.omain = s.omain ∧
      s'.ostaging = s.ostaging ∧ s'.oproduction = s.oproduction ∧
      s'.current = s.current ∧ s'.ctr = s.ctr := by
  rcases gitPullFFOnly_cases h with ⟨_, rfl⟩ | ⟨_, _, rfl⟩
  · exact ⟨rfl, rfl, rfl, rfl, rfl, rfl, rfl⟩
  · exact ⟨rfl, rfl, rfl, rfl, rfl, rfl, rfl⟩

theorem mergeStagingIntoProd {s s' : RepoState} {n : Nat} {subj : String}
    {rest : List (Nat × String)}
    (hcur : s.current = "production")
    (hC : s.staging.hist = (n, subj) :: rest)
    (hfr : ∀ p ∈ s.production.hist, p.1 ≠ n)
    (h : gitMergeFFOnly "staging" s = some s') :
    s'.main = s.main ∧ s'.staging = s.staging ∧ s'.production = s.staging ∧
      s'.omain = s.omain ∧ s'.ostaging = s.ostaging ∧
      s'.oproduction = s.oproduction ∧ s'.current = s.current ∧ s'.ctr = s.ctr := by
  rcases gitMergeFFOnly_cases h with ⟨hc1, rfl⟩ | ⟨hc1, hc2, rfl⟩
  · rw [hcur]
    exact ⟨rfl, rfl, rfl, rfl, rfl, rfl, hcur, rfl⟩
  · rw [show tipB "staging" s = s.staging from rfl, hC, hcur,
      show tipB "production" s = s.production from rfl] at hc2
    obtain ⟨q, hq, hqn⟩ := subHist_head_mem hc2
    exact absurd hqn (hfr q hq)

theorem mergeProdIntoMain {s s' : RepoState} {n : Nat} {subj : String}
    {rest : List (Nat × String)}
    (hcur : s.current = "main")
    (hC : s.production.hist = (n, subj) :: rest)
    (hfr : ∀ p ∈ s.main.hist, p.1 ≠ n)
    (h : gitMergeFFOnly "production" s = some s') :
    s'.main = s.production ∧ s'.staging = s.staging ∧ s'.production = s.production ∧
      s'.omain = s.omain ∧ s'.ostaging = s.ostaging ∧
      s'.oproduction = s.oproduction ∧ s'.current = s.current ∧ s'.ctr = s.ctr := by
  rcases gitMergeFFOnly_cases h with ⟨hc1, rfl⟩ | ⟨hc1, hc2, rfl⟩
  · rw [hcur]
    exact ⟨rfl, rfl, rfl, rfl, rfl, rfl, hcur, rfl⟩
  · rw [show tipB "production" s = s.production from rfl, hC, hcur,
      show tipB "main" s = s.main from rfl] at hc2
    obtain ⟨q, hq, hqn⟩ := subHist_head_mem hc2
    exact absurd hqn (hfr q hq)

theorem mergeMainIntoStaging {s s' : RepoState}
    (hcur : s.current = "staging")
    (heq : s.staging = s.main)
    (h : gitMergeFFOnly "main" s = some s') :
    s'.main = s.main ∧ s'.staging = s.staging ∧ s'.production = s.production ∧
      s'.omain = s.omain ∧ s'.ostaging = s.ostaging ∧
      s'.oproduction = s.oproduction ∧ s'.current = s.current ∧ s'.ctr = s.ctr := by
  rcases gitMergeFFOnly_cases h with ⟨hc1, rfl⟩ | ⟨hc1, hc2, rfl⟩
  · rw [hcur]
    refine ⟨rfl, ?_, rfl, rfl, rfl, rfl, hcur, rfl⟩
    exact heq.symm
  · exact ⟨rfl, rfl, rfl, rfl, rfl, rfl, rfl, rfl⟩

theorem commitOnStaging {s s' : RepoState} {subject : String}
    (hcur : s.current = "staging") (h : gitCommitAll subject s = some s') :
    s'.staging = ⟨(s.ctr, subject) :: s.staging.hist, s.wt⟩ ∧
      s'.main = s.main ∧ s'.production = s.production ∧ s'.omain = s.omain ∧
      s'.ostaging = s.ostaging ∧ s'.oproduction = s.oproduction ∧
      s'.current = s.current ∧ s'.ctr = s.ctr + 1 := by
  obtain ⟨hd, rfl⟩ := gitCommitAll_some h
  rw [hcur]
  exact ⟨rfl, rfl, rfl, rfl, rfl, rfl, hcur, rfl⟩

/-- The promote chain, run from the post-commit state: if it reaches the
success outcome, `production`, `staging` and `main` all end at the
commit `staging` pointed at when the chain started, and the operator ends
on `main`.  The freshness hypotheses say that the head commit id of
`staging` (the just-created release commit) is not reachable from any of
the other refs, which rules out the degenerate "already up to date"
outcome of the two promotion merges. -/
theorem promoteChain_spec {s8 sfin : RepoState} {n : Nat} {subj : String}
    {rest : List (Nat × String)}
    (hC : s8.staging.hist = (n, subj) :: rest)
    (hfr1 : ∀ p ∈ s8.production.hist, p.1 ≠ n)
    (hfr2 : ∀ p ∈ s8.oproduction.hist, p.1 ≠ n)
    (hfr3 : ∀ p ∈ s8.main.hist, p.1 ≠ n)
    (hfr4 : ∀ p ∈ s8.omain.hist, p.1 ≠ n)
    (h : promoteChain s8 = .success sfin) :
    sfin.current = "main" ∧ sfin.production = s8.staging ∧
      sfin.staging = s8.staging ∧ sfin.main = s8.staging := by
  simp only [promoteChain] at h
  cases hpull1 : gitPullFFOnly "production" (gitCheckout "production" s8) with
  | none => simp only [hpull1] at h; simp at h
  | some s10 =>
  simp only [hpull1] at h
  have hp10 := pullProd_facts hpull1
  have h10m : s10.main = s8.main := hp10.1
  have h10s : s10.staging = s8.staging := hp10.2.1
  have h10om : s10.omain = s8.omain := hp10.2.2.2.1
  have h10cur : s10.current = "production" := hp10.2.2.2.2.2.2.1
  have hfrP : ∀ p ∈ s10.production.hist, p.1 ≠ n := by
    rcases hp10.2.2.1 with he | he
    · rw [he]; exact hfr1
    · rw [he]; exact hfr2
  cases hm1 : gitMergeFFOnly "staging" s10 with
  | none => simp only [hm1] at h; simp at h
  | some s11 =>
  simp only [hm1] at h
  have hM1 := mergeStagingIntoProd h10cur (by rw [h10s]; exact hC) hfrP hm1
  have h11m : s11.main = s8.main := hM1.1.trans h10m
  have h11s : s11.staging = s8.staging := hM1.2.1.trans h10s
  have h11p : s11.production = s8.staging := hM1.2.2.1.trans h10s
  have h11om : s11.omain = s8.omain := hM1.2.2.2.1.trans h10om
  have h11cur : s11.current = "production" := hM1.2.2.2.2.2.2.1.trans h10cur
  cases hps1 : gitPush "production" s11 with
  | none => simp only [hps1] at h; simp at h
  | some s12 =>
  simp only [hps1] at h
  have hP1 := gitPush_frame hps1
  have h12m : s12.main = s8.main := hP1.1.trans h11m
  have h12s : s12.staging = s8.staging := hP1.2.1.trans h11s
  have h12p : s12.production = s8.staging := hP1.2.2.1.trans h11p
  have h12om : s12.omain = s8.omain := by
    obtain ⟨_, rfl⟩ := gitPush_some hps1
    exact h11om
  cases hpull2 : gitPullFFOnly "main" (gitCheckout "main" s12) with
  | none => simp only [hpull2] at h; simp at h
  | some s14 =>
  simp only [hpull2] at h
  have hp14 := pullMain_facts hpull2
  have h14s : s14.staging = s8.staging := hp14.2.1.trans h12s
  have h14p : s14.production = s8.staging := hp14.2.2.1.trans h12p
  have h14cur : s14.current = "main" := hp14.2.2.2.2.2.2.1
  have hfrM : ∀ p ∈ s14.main.hist, p.1 ≠ n := by
    rcases hp14.1 with he | he
    · rw [he, show (gitCheckout "main" s12).main = s12.main from rfl, h12m]
      exact hfr3
    · rw [he, show (gitCheckout "main" s12).omain = s12.omain from rfl, h12om]
      exact hfr4
  cases hm2 : gitMergeFFOnly "production" s14 with
  | none => simp only [hm2] at h; simp at h
  | some s15 =>
  simp only [hm2] at h
  have hM2 := mergeProdIntoMain h14cur (by rw [h14p]; exact hC) hfrM hm2
  have h15m : s15.main = s8.staging := hM2.1.trans h14p
  have h15s : s15.staging = s8.staging := hM2.2.1.trans h14s
  have h15p : s15.production = s8.staging := hM2.2.2.1.trans h14p
  cases hps2 : gitPush "main" s15 with
  | none => simp only [hps2] at h; simp at h
  | some s16 =>
  simp only [hps2] at h
  have hP2 := gitPush_frame hps2
  have h16m : s16.main = s8.staging := hP2.1.trans h15m
  have h16s : s16.staging = s8.staging := hP2.2.1.trans h15s
  have h16p : s16.production = s8.staging := hP2.2.2.1.trans h15p
  cases hm3 : gitMergeFFOnly "main" (gitCheckout "staging" s16) with
  | none => simp only [hm3] at h; simp at h
  | some s18 =>
  simp only [hm3] at h
  have hM3 := mergeMainIntoStaging
    (show (gitCheckout "staging" s16).current = "staging" from rfl)
    (by
      rw [show (gitCheckout "staging" s16).staging = s16.staging from rfl,
        show (gitCheckout "staging" s16).main = s16.main from rfl, h16s, h16m])
    hm3
  have h18m : s18.main = s8.staging := hM3.1.trans h16m
  have h18s : s18.staging = s8.staging := hM3.2.1.trans h16s
  have h18p : s18.production = s8.staging := hM3.2.2.1.trans h16p
  cases hps3 : gitPush "staging" s18 with
  | none => simp only [hps3] at h; simp at h
  | some s19 =>
  simp only [hps3] at h
  have hP3 := gitPush_frame hps3
  have h19m : s19.main = s8.staging := hP3.1.trans h18m
  have h19s : s19.staging = s8.staging := hP3.2.1.trans h18s
  have h19p : s19.production = s8.staging := hP3.2.2.1.trans h18p
  injection h with h1
  rw [← h1]
  exact ⟨rfl,
    (show (gitCheckout "main" s19).production = s19.production from rfl).trans h19p,
    (show (gitCheckout "main" s19).staging = s19.staging from rfl).trans h19s,
    (show (gitCheckout "main" s19).main = s19.main from rfl).trans h19m⟩

/-- C7 witness: the demonstration scenario with a failing quality gate. -/
theorem c7_witness :
    shipFlow { demoShip with qualityOk := false } demoS0 = .qualityFail demoQFFinal ∧
      demoQFFinal.current = "main" ∧
      (shipFlow { demoShip with qualityOk := false } demoS0).exitCode = 1 :=
  ⟨by decide,
    (c7_shipFlow_quality_fail { demoShip with qualityOk := false } demoS0 demoQFFinal
      (by decide)).1,
    (c7_shipFlow_quality_fail { demoShip with qualityOk := false } demoS0 demoQFFinal
      (by decide)).2⟩

/-! ## Substring lemmas for the inserted changelog section (C1) -/

theorem hasSub_cons {pat xs : List Char} (c : Char) (h : hasSub pat xs = true) :
    hasSub pat (c :: xs) = true := by
  unfold hasSub at h ⊢
  unfold firstIdx
  split_ifs with hp
  · rfl
  · cases hfi : firstIdx pat xs with
    | none => rw [hfi] at h; simp at h
    | some i => rfl

theorem hasSub_self_append (pat t : List Char) : hasSub pat (pat ++ t) = true := by
  have hp : hasPre pat (pat ++ t) = true := hasPre_iff.mpr ⟨t, rfl⟩
  unfold hasSub
  cases hpt : pat ++ t with
  | nil => rw [hpt] at hp; simp [firstIdx, hp]
  | cons c rest => rw [hpt] at hp; simp [firstIdx, hp]

theorem hasSub_append_left {pat xs : List Char} (a : List Char)
    (h : hasSub pat xs = true) : hasSub pat (a ++ xs) = true := by
  induction a with
  | nil => exact h
  | cons c a ih => exact hasSub_cons c ih

/-- The section heading occurs in the document produced by splicing the
section into any prior state of the changelog file. -/
theorem hasSub_sectionEntry_insert (ex : Option (List Char)) (v t body : String) :
    hasSub (sectionHead v t) (insertChangelog ex (sectionEntry v t body)) = true := by
  have hsec : sectionEntry v t body =
      sectionHead v t ++ ("\n\n".toList ++ body.toList ++ "\n".toList) := by
    simp [sectionEntry, sectionHead]
  rw [hsec]
  cases ex with
  | none => exact hasSub_append_left _ (hasSub_self_append _ _)
  | some ex =>
    cases hfi : firstIdx nlHH ex with
    | none =>
      simp only [insertChangelog, hfi]
      have h2 := hasSub_append_left (trimEndWs ex ++ ['\n', '\n'])
        (hasSub_self_append (sectionHead v t)
          ("\n\n".toList ++ body.toList ++ "\n".toList))
      rw [List.append_assoc] at h2
      exact h2
    | some i =>
      simp only [insertChangelog, hfi]
      rw [List.append_assoc (sectionHead v t)]
      have h2 := hasSub_append_left (List.take i ex ++ ['\n', '\n'])
        (hasSub_self_append (sectionHead v t)
          (("\n\n".toList ++ body.toList ++ "\n".toList) ++ List.drop (i + 1) ex))
      rw [List.append_assoc] at h2
      exact h2

set_option maxHeartbeats 2000000 in
/-- C1: every `flow-ship` run that reaches the success outcome (all guards
passed, the operator confirmed, the quality gate succeeded, every
fast-forward pull/merge and push succeeded) terminates with `production`,
`staging` and `main` all pointing at the same commit, that commit's
manifest carrying the bump of the version that was on the `staging` branch
(local or remote tip), its changelog containing the freshly inserted
`## [newVersion] - today` section, the operator checked out on `main`, and
exit code 0.  The `IdsBelow` hypothesis is the representation invariant of
the commit-id model (every reachable id is below the fresh-id counter). -/
theorem c1_shipFlow_success (inp : ShipInput) (s0 s : RepoState)
    (hwf : IdsBelow s0)
    (h : shipFlow inp s0 = .success s) :
    s.current = "main" ∧ s.production = s.staging ∧ s.staging = s.main ∧
      (∃ name oldV newV chl,
        (s0.staging.snap.pkg = some ⟨name, oldV⟩ ∨
          s0.ostaging.snap.pkg = some ⟨name, oldV⟩) ∧
        bumpVersion oldV inp.bumpType = .ok newV ∧
        s.main.snap.pkg = some ⟨name, newV⟩ ∧
        s.main.snap.changelog = some chl ∧
        hasSub (sectionHead newV inp.today) chl = true) ∧
      (shipFlow inp s0).exitCode = 0 := by
  obtain ⟨hw1, hw2, hw3, hw4, hw5, hw6⟩ := hwf
  have hexit : (shipFlow inp s0).exitCode = 0 := by rw [h]; rfl
  simp only [shipFlow] at h
  split_ifs at h with hbt hcur0 hdirty hst hpr hahead hq
  rotate_left
  · -- quality gate failed: no branch of the remainder is a success outcome
    repeat' split at h
    all_goals exact ShipRes.noConfusion h
  cases hpk : (gitFetch s0).wt.pkg with
  | none => simp only [hpk] at h; exact ShipRes.noConfusion h
  | some pk =>
  simp only [hpk] at h
  split_ifs at h with hconf
  cases hpull : gitPullFFOnly "staging" (gitCheckout "staging" (gitFetch s0)) with
  | none => simp only [hpull] at h; exact ShipRes.noConfusion h
  | some s3 =>
  simp only [hpull] at h
  cases hpk2 : (runQualityChecksOp s3).wt.pkg with
  | none => simp only [hpk2] at h; exact ShipRes.noConfusion h
  | some pk2 =>
  simp only [hpk2] at h
  cases hbv : bumpVersion pk2.version inp.bumpType with
  | error e => simp only [hbv] at h; exact ShipRes.noConfusion h
  | ok newV =>
  simp only [hbv] at h
  have hp3 := pullStaging_facts hpull
  have h3m : s3.main = s0.main := hp3.1
  have h3p : s3.production = s0.production := hp3.2.1
  have h3om : s3.omain = s0.omain := hp3.2.2.1
  have h3opr : s3.oproduction = s0.oproduction := hp3.2.2.2.2.1
  have h3cur : s3.current = "staging" := hp3.2.2.2.2.2.1
  have h3ctr : s3.ctr = s0.ctr := hp3.2.2.2.2.2.2
  have hwt3 : s3.wt = s0.ostaging.snap ∨ s3.wt = s0.staging.snap := by
    rcases gitPullFFOnly_cases hpull with ⟨_, rfl⟩ | ⟨_, _, rfl⟩
    · exact Or.inl rfl
    · exact Or.inr rfl
  have hpk2src : s0.staging.snap.pkg = some pk2 ∨ s0.ostaging.snap.pkg = some pk2 := by
    rcases hwt3 with hw | hw
    · right; rw [← hw]; exact hpk2
    · left; rw [← hw]; exact hpk2
  cases hcm : gitCommitAll ("chore(release): " ++ pk.name ++ "@" ++ newV)
      (gitAddAll (runFixOp (writeChangelogOp
        (sectionEntry newV inp.today (changeBodyOf inp.bumpType
          (logSubjectsBetween (writePkg { pk2 with version := newV }
              (runQualityChecksOp s3)).oproduction
            (tipB "staging" (writePkg { pk2 with version := newV }
              (runQualityChecksOp s3))))))
        (writePkg { pk2 with version := newV } (runQualityChecksOp s3))))) with
  | none => simp only [hcm] at h; exact ShipRes.noConfusion h
  | some s8 =>
  simp only [hcm] at h
  have hfacts := commitOnStaging (by exact h3cur) hcm
  have h8stg : s8.staging =
      ⟨(s3.ctr, "chore(release): " ++ pk.name ++ "@" ++ newV) :: s3.staging.hist,
        ⟨some { pk2 with version := newV },
          some (insertChangelog s3.wt.changelog (sectionEntry newV inp.today
            (changeBodyOf inp.bumpType
              (logSubjectsBetween (writePkg { pk2 with version := newV }
                  (runQualityChecksOp s3)).oproduction
                (tipB "staging" (writePkg { pk2 with version := newV }
                  (runQualityChecksOp s3)))))))⟩⟩ := hfacts.1
  rw [h3ctr] at h8stg
  have hC : s8.staging.hist =
      (s0.ctr, "chore(release): " ++ pk.name ++ "@" ++ newV) :: s3.staging.hist := by
    rw [h8stg]
  have hfr1 : ∀ q ∈ s8.production.hist, q.1 ≠ s0.ctr := by
    intro q hq
    have h1 : s8.production = s0.production := hfacts.2.2.1.trans h3p
    rw [h1] at hq
    exact Nat.ne_of_lt (hw3 q hq)
  have hfr2 : ∀ q ∈ s8.oproduction.hist, q.1 ≠ s0.ctr := by
    intro q hq
    have h1 : s8.oproduction = s0.oproduction := hfacts.2.2.2.2.2.1.trans h3opr
    rw [h1] at hq
    exact Nat.ne_of_lt (hw6 q hq)
  have hfr3 : ∀ q ∈ s8.main.hist, q.1 ≠ s0.ctr := by
    intro q hq
    have h1 : s8.main = s0.main := hfacts.2.1.trans h3m
    rw [h1] at hq
    exact Nat.ne_of_lt (hw1 q hq)
  have hfr4 : ∀ q ∈ s8.omain.hist, q.1 ≠ s0.ctr := by
    intro q hq
    have h1 : s8.omain = s0.omain := hfacts.2.2.2.1.trans h3om
    rw [h1] at hq
    exact Nat.ne_of_lt (hw4 q hq)
  have hspec := promoteChain_spec hC hfr1 hfr2 hfr3 hfr4 h
  refine ⟨hspec.1, hspec.2.1.trans hspec.2.2.1.symm, hspec.2.2.1.trans hspec.2.2.2.symm,
    ⟨pk2.name, pk2.version, newV,
      insertChangelog s3.wt.changelog (sectionEntry newV inp.today
        (changeBodyOf inp.bumpType
          (logSubjectsBetween (writePkg { pk2 with version := newV }
              (runQualityChecksOp s3)).oproduction
            (tipB "staging" (writePkg { pk2 with version := newV }
              (runQualityChecksOp s3)))))),
      hpk2src, hbv, ?_, ?_, ?_⟩, hexit⟩
  · rw [hspec.2.2.2, h8stg]
  · rw [hspec.2.2.2, h8stg]
  · exact hasSub_sectionEntry_insert _ _ _ _

/-- C1 witness: the spec's end-to-end Ship scenario (`minor` bump from
`2.1.0`, three feature commits on `staging`), run concretely. -/
theorem c1_witness :
    IdsBelow demoS0 ∧
      shipFlow demoShip demoS0 = .success demoShipFinal ∧
      (demoShipFinal.current = "main" ∧
        demoShipFinal.production = demoShipFinal.staging ∧
        demoShipFinal.staging = demoShipFinal.main ∧
        (∃ name oldV newV chl,
          (demoS0.staging.snap.pkg = some ⟨name, oldV⟩ ∨
            demoS0.ostaging.snap.pkg = some ⟨name, oldV⟩) ∧
          bumpVersion oldV demoShip.bumpType = .ok newV ∧
          demoShipFinal.main.snap.pkg = some ⟨name, newV⟩ ∧
          demoShipFinal.main.snap.changelog = some chl ∧
          hasSub (sectionHead newV demoShip.today) chl = true) ∧
        (shipFlow demoShip demoS0).exitCode = 0) :=
  ⟨by decide, by decide,
    c1_shipFlow_success demoShip demoS0 demoShipFinal (by decide) (by decide)⟩

end Dev
